import Mathlib

/-!
Shallow embedding of `scraper/delhi_high_court.py` (class `DelhiHighCourtScraper`).

Strings are `List Char`.  The BeautifulSoup views of an HTML document are
modelled by the `Doc` structure: `raw` is the raw HTML text (`html_content`),
`tables` holds, for each `<table>`, for each `<tr>`, the list of
`get_text(strip=True)` texts of its `td`/`th` cells, and `divs` holds the
`class name → text` association of each element matched by
`soup.find_all('div', class_=re.compile(r'case|result|row|item'))`.

The concrete regular expressions of the source are translated into
deterministic maximal-munch scanners; for these particular patterns every
junction of adjacent pieces is between disjoint character classes (or a
bounded repetition followed by a character that cannot also start the
repetition), so maximal munch agrees with Python's backtracking semantics.
Python's `$` (which also matches just before one trailing newline) is
modelled by `atEnd`.  `datetime.strptime` is modelled format by format with
the value constraints of CPython's `_strptime` regexes (`%d`: 1-31, `%m`:
1-12, `%Y`: exactly four digits, `%y`: two digits with the 69-pivot), a
full-consumption check and the `datetime` constructor's range validation;
`strftime('%Y-%m-%d')` is modelled as zero-padded decimal rendering.
Fuel arguments are always instantiated with the input length, which the
corresponding loops never exceed because each step consumes at least one
character.
-/

def cs (s : String) : List Char := s.toList

/-- Python `\s` (ASCII whitespace as used by the inputs of this scraper). -/
def isWs (c : Char) : Bool :=
  decide (c ∈ [' ', '\t', '\n', '\r', '\x0b', '\x0c'])

def isDigitCh (c : Char) : Bool := '0' ≤ c && c ≤ '9'

def isUpperCh (c : Char) : Bool := 'A' ≤ c && c ≤ 'Z'

def isLowAZ (c : Char) : Bool := 'a' ≤ c && c ≤ 'z'

/-- Character class `[A-Z\.]` without `re.IGNORECASE` (row-scan regex). -/
def isUpperDot (c : Char) : Bool := isUpperCh c || c = '.'

/-- Character class `[A-Z\.]` under `re.IGNORECASE`. -/
def isLtrDot (c : Char) : Bool := isUpperCh c || isLowAZ c || c = '.'

def dval (c : Char) : Nat := c.toNat - '0'.toNat

/-- Python `str.lower()` (ASCII). -/
def lowerList (s : List Char) : List Char := s.map Char.toLower

/-- Python `str.strip()`. -/
def stripList (s : List Char) : List Char :=
  ((s.dropWhile isWs).reverse.dropWhile isWs).reverse

/-- Python `x or d` for an optional string `x` (both `None` and `''` give `d`). -/
def pyOr (o : Option (List Char)) (d : List Char) : List Char :=
  match o with
  | some x => if x = [] then d else x
  | none => d

/-- Python `needle in hay` (contiguous substring test). -/
def containsSub : List Char → List Char → Bool
  | hay, needle =>
    needle.isPrefixOf hay ||
      match hay with
      | [] => false
      | _ :: t => containsSub t needle

/-- Python `$` outside MULTILINE: end of string, or just before one final newline. -/
def atEnd (r : List Char) : Bool := r = [] || r = ['\n']

/-- The canonical case-record shape produced by every extraction path. -/
structure CaseRecord where
  case_number : List Char
  petitioner : List Char
  respondent : List Char
  filing_date : Option (List Char)
  status : List Char
  court : List Char
  case_type : List Char
  judge : Option (List Char)
  next_hearing : Option (List Char)
deriving DecidableEq

def court_name : List Char := cs "Delhi High Court"

/-- Python `case = extract(...); if case: cases.append(case)` — append the
record when one was produced. -/
def appendOpt (acc : List CaseRecord) (o : Option CaseRecord) : List CaseRecord :=
  match o with
  | some c => acc ++ [c]
  | none => acc

/-! ### `_parse_date` (lines 506-537): `datetime.strptime` per format -/

/-- Two-digit value constraint of strptime `%d` (`3[01]|[12]\d|0[1-9]`). -/
def dayOk2 (v : Nat) : Bool := 1 ≤ v && v ≤ 31

/-- Two-digit value constraint of strptime `%m` (`1[0-2]|0[1-9]`). -/
def monOk2 (v : Nat) : Bool := 1 ≤ v && v ≤ 12

/-- strptime field that is two digits (preferred, with the given value bound)
or one nonzero digit (`[1-9]`).  When two digits are available but the
two-digit value bound fails, the one-digit alternative cannot rescue the
match because the following character is a digit while the format next
expects a separator or the end, so the whole format fails — as in CPython. -/
def read2or1 (valid2 : Nat → Bool) : List Char → Option (Nat × List Char)
  | c1 :: c2 :: rest =>
    if isDigitCh c1 then
      if isDigitCh c2 then
        if valid2 (dval c1 * 10 + dval c2) then
          some (dval c1 * 10 + dval c2, rest)
        else none
      else if 1 ≤ dval c1 then some (dval c1, c2 :: rest) else none
    else none
  | [c1] =>
    if isDigitCh c1 then
      if 1 ≤ dval c1 then some (dval c1, ([] : List Char)) else none
    else none
  | [] => none

/-- strptime `%Y`: exactly four digits. -/
def read4y : List Char → Option (Nat × List Char)
  | a :: b :: c :: d :: rest =>
    if isDigitCh a && isDigitCh b && isDigitCh c && isDigitCh d then
      some (dval a * 1000 + dval b * 100 + dval c * 10 + dval d, rest)
    else none
  | _ => none

/-- strptime `%y`: two digits, pivot 68 (0-68 → 2000s, 69-99 → 1900s). -/
def read2y : List Char → Option (Nat × List Char)
  | a :: b :: rest =>
    if isDigitCh a && isDigitCh b then
      some (if dval a * 10 + dval b ≤ 68 then 2000 + (dval a * 10 + dval b)
            else 1900 + (dval a * 10 + dval b), rest)
    else none
  | _ => none

def expectCh (c : Char) : List Char → Option (List Char)
  | a :: t => if a = c then some t else none
  | [] => none

def daysInMonth (y m : Nat) : Nat :=
  if m = 2 then
    if y % 4 = 0 ∧ (y % 100 ≠ 0 ∨ y % 400 = 0) then 29 else 28
  else if m = 4 ∨ m = 6 ∨ m = 9 ∨ m = 11 then 30
  else 31

/-- Range checks of the `datetime` constructor (`ValueError` on failure). -/
def validDate (y m d : Nat) : Bool :=
  decide (1 ≤ y ∧ y ≤ 9999 ∧ 1 ≤ m ∧ m ≤ 12 ∧ 1 ≤ d ∧ d ≤ daysInMonth y m)

/-- `strptime` with format `%d<sep>%m<sep>%Y`. -/
def fmtDMY (sep : Char) (t : List Char) : Option (Nat × Nat × Nat) :=
  match read2or1 dayOk2 t with
  | none => none
  | some (d, t1) =>
    match expectCh sep t1 with
    | none => none
    | some t2 =>
      match read2or1 monOk2 t2 with
      | none => none
      | some (m, t3) =>
        match expectCh sep t3 with
        | none => none
        | some t4 =>
          match read4y t4 with
          | none => none
          | some (y, t5) =>
            if t5 = [] ∧ validDate y m d = true then some (y, m, d) else none

/-- `strptime` with format `%Y<sep>%m<sep>%d`. -/
def fmtYMD (sep : Char) (t : List Char) : Option (Nat × Nat × Nat) :=
  match read4y t with
  | none => none
  | some (y, t1) =>
    match expectCh sep t1 with
    | none => none
    | some t2 =>
      match read2or1 monOk2 t2 with
      | none => none
      | some (m, t3) =>
        match expectCh sep t3 with
        | none => none
        | some t4 =>
          match read2or1 dayOk2 t4 with
          | none => none
          | some (d, t5) =>
            if t5 = [] ∧ validDate y m d = true then some (y, m, d) else none

/-- `strptime` with format `%d<sep>%m<sep>%y`. -/
def fmtDMy (sep : Char) (t : List Char) : Option (Nat × Nat × Nat) :=
  match read2or1 dayOk2 t with
  | none => none
  | some (d, t1) =>
    match expectCh sep t1 with
    | none => none
    | some t2 =>
      match read2or1 monOk2 t2 with
      | none => none
      | some (m, t3) =>
        match expectCh sep t3 with
        | none => none
        | some t4 =>
          match read2y t4 with
          | none => none
          | some (y, t5) =>
            if t5 = [] ∧ validDate y m d = true then some (y, m, d) else none

/-- The loop over `date_formats` of `_parse_date`, first success wins. -/
def tryFormats (t : List Char) : Option (Nat × Nat × Nat) :=
  match fmtDMY '/' t with
  | some r => some r
  | none =>
    match fmtDMY '-' t with
    | some r => some r
    | none =>
      match fmtYMD '-' t with
      | some r => some r
      | none =>
        match fmtDMy '/' t with
        | some r => some r
        | none =>
          match fmtDMy '-' t with
          | some r => some r
          | none => fmtYMD '/' t

/-- The same six formats as a list, used to state that `tryFormats` is the
ordered first-success traversal of the fixed format order. -/
def date_formats : List (List Char → Option (Nat × Nat × Nat)) :=
  [fmtDMY '/', fmtDMY '-', fmtYMD '-', fmtDMy '/', fmtDMy '-', fmtYMD '/']

/-- `strftime('%Y-%m-%d')`, zero-padded. -/
def renderDate (y m d : Nat) : List Char :=
  [Nat.digitChar (y / 1000 % 10), Nat.digitChar (y / 100 % 10),
   Nat.digitChar (y / 10 % 10), Nat.digitChar (y % 10), '-',
   Nat.digitChar (m / 10 % 10), Nat.digitChar (m % 10), '-',
   Nat.digitChar (d / 10 % 10), Nat.digitChar (d % 10)]

/-- `_parse_date` (lines 506-537): falsy input gives `None`, otherwise the
stripped input is tried against the six formats in order and the first
success is rendered as `YYYY-MM-DD`. -/
def parse_date (s : List Char) : Option (List Char) :=
  if s = [] then none
  else (tryFormats (stripList s)).map (fun t => renderDate t.1 t.2.1 t.2.2)

/-! ### `_extract_case_type` (lines 486-504) -/

/-- `_extract_case_type`: first whitespace-delimited token of `case_number`
(`case_number.split()` then `parts[0]`), `'Unknown'` for an empty or
all-whitespace case number. -/
def extract_case_type (cn : List Char) : List Char :=
  if cn = [] then cs "Unknown"
  else
    let w := (cn.dropWhile isWs).takeWhile (fun c => !isWs c)
    if w = [] then cs "Unknown" else w

/-! ### Strategy 1: `_extract_case_from_row` (lines 346-402) -/

/-- Scanner for `[A-Z\.]+\([A-Z]+\)\s+\d+/\d{4}` (case-sensitive), returning
the length of the match when one starts at the head of the input. -/
def rowCasePat (s : List Char) : Option Nat :=
  let L := s.takeWhile isUpperDot
  if L.length = 0 then none else
  match s.drop L.length with
  | '(' :: s1 =>
    let U := s1.takeWhile isUpperCh
    if U.length = 0 then none else
    match s1.drop U.length with
    | ')' :: s2 =>
      let W := s2.takeWhile isWs
      if W.length = 0 then none else
      let s3 := s2.drop W.length
      let D := s3.takeWhile isDigitCh
      if D.length = 0 then none else
      match s3.drop D.length with
      | '/' :: s4 =>
        if (s4.take 4).length = 4 ∧ (s4.take 4).all isDigitCh = true then
          some (L.length + 1 + U.length + 1 + W.length + D.length + 1 + 4)
        else none
      | _ => none
    | _ => none
  | _ => none

/-- Scanner for the date-shaped token regex (one or two digits, a slash or
dash, one or two digits, a slash or dash, four digits) starting at the head
of the input.  A digit run of three or more fails both the two-digit and the
one-digit alternative of the bounded repetition followed by a separator. -/
def rowDatePat (s : List Char) : Option Nat :=
  let r1 := (s.takeWhile isDigitCh).length
  if r1 = 0 ∨ 2 < r1 then none else
  match s.drop r1 with
  | c1 :: s1 =>
    if c1 = '/' ∨ c1 = '-' then
      let r2 := (s1.takeWhile isDigitCh).length
      if r2 = 0 ∨ 2 < r2 then none else
      match s1.drop r2 with
      | c2 :: s2 =>
        if (c2 = '/' ∨ c2 = '-') ∧ (s2.take 4).length = 4 ∧
            (s2.take 4).all isDigitCh = true then
          some (r1 + 1 + r2 + 1 + 4)
        else none
      | [] => none
    else none
  | [] => none

/-- `re.search`: does the pattern match starting at some position? -/
def searchP (p : List Char → Option Nat) : List Char → Bool
  | [] => (p []).isSome
  | c :: t => (p (c :: t)).isSome || searchP p t

def hasRowCase (t : List Char) : Bool := searchP rowCasePat t

def hasRowDate (t : List Char) : Bool := searchP rowDatePat t

def status_words : List (List Char) :=
  [cs "pending", cs "disposed", cs "dismissed", cs "closed"]

/-- The local variables of `_extract_case_from_row`'s cell loop. -/
structure RowAcc where
  case_number : Option (List Char)
  petitioner : Option (List Char)
  respondent : Option (List Char)
  filing_date : Option (List Char)
  status : Option (List Char)
deriving DecidableEq

/-- One iteration of `for i, cell in enumerate(cells)` (lines 364-383). -/
def rowStep (cells : List (List Char)) (acc : RowAcc) (i : Nat) : RowAcc :=
  let t := cells.getD i []
  if acc.case_number.isNone ∧ hasRowCase t = true then
    { acc with case_number := some t }
  else if containsSub (lowerList t) (cs "petitioner") = true ∨
      containsSub (lowerList t) (cs "vs") = true then
    if i + 1 < cells.length then
      { acc with petitioner := some (cells.getD (i + 1) []) }
    else acc
  else if hasRowDate t = true then
    if acc.filing_date.isNone then { acc with filing_date := some t } else acc
  else if status_words.any (fun w => containsSub (lowerList t) w) = true then
    { acc with status := some t }
  else acc

/-- Python `self._parse_date(x) if x else None` for an optional string
(`None` and the empty string are both falsy). -/
def parseDateIf (o : Option (List Char)) : Option (List Char) :=
  match o with
  | some fd => if fd ≠ [] then parse_date fd else none
  | none => none

/-- The record built at the end of `_extract_case_from_row` (lines 385-398):
a record exactly when a case number was found. -/
def rowRecord (acc : RowAcc) : Option CaseRecord :=
  match acc.case_number with
  | some cn =>
    some { case_number := cn,
           petitioner := pyOr acc.petitioner (cs "N/A"),
           respondent := pyOr acc.respondent (cs "N/A"),
           filing_date := parseDateIf acc.filing_date,
           status := pyOr acc.status (cs "Unknown"),
           court := court_name,
           case_type := extract_case_type cn,
           judge := none,
           next_hearing := none }
  | none => none

/-- `_extract_case_from_row` (lines 346-402). -/
def extract_case_from_row (cells : List (List Char)) : Option CaseRecord :=
  rowRecord ((List.range cells.length).foldl (rowStep cells)
    ⟨none, none, none, none, none⟩)

/-! ### Strategy on plain text: `_extract_from_text` (lines 539-583) -/

/-- Scanner for `[A-Z\.]+\s+\d+<sep>\d{4}` under IGNORECASE (`sep` is `/` for
the first and `-` for the third free-text pattern). -/
def ftSlashDash (sep : Char) (s : List Char) : Option Nat :=
  let L := s.takeWhile isLtrDot
  if L.length = 0 then none else
  let s1 := s.drop L.length
  let W := s1.takeWhile isWs
  if W.length = 0 then none else
  let s2 := s1.drop W.length
  let D := s2.takeWhile isDigitCh
  if D.length = 0 then none else
  match s2.drop D.length with
  | c :: s3 =>
    if c = sep ∧ (s3.take 4).length = 4 ∧ (s3.take 4).all isDigitCh = true then
      some (L.length + W.length + D.length + 1 + 4)
    else none
  | [] => none

/-- Scanner for `[A-Z\.]+\s+\d+\s+of\s+\d{4}` under IGNORECASE. -/
def ftOf (s : List Char) : Option Nat :=
  let L := s.takeWhile isLtrDot
  if L.length = 0 then none else
  let s1 := s.drop L.length
  let W1 := s1.takeWhile isWs
  if W1.length = 0 then none else
  let s2 := s1.drop W1.length
  let D := s2.takeWhile isDigitCh
  if D.length = 0 then none else
  let s3 := s2.drop D.length
  let W2 := s3.takeWhile isWs
  if W2.length = 0 then none else
  match s3.drop W2.length with
  | c1 :: c2 :: s4 =>
    if (c1 = 'o' ∨ c1 = 'O') ∧ (c2 = 'f' ∨ c2 = 'F') then
      let W3 := s4.takeWhile isWs
      if W3.length = 0 then none else
      let s5 := s4.drop W3.length
      if (s5.take 4).length = 4 ∧ (s5.take 4).all isDigitCh = true then
        some (L.length + W1.length + D.length + W2.length + 2 + W3.length + 4)
      else none
    else none
  | _ => none

def ftPat1 : List Char → Option Nat := ftSlashDash '/'

def ftPat3 : List Char → Option Nat := ftSlashDash '-'

/-- `re.sub(r'<[^>]+>', ' ', s)`: each `<`, followed by at least one
non-`>` character and then `>`, is replaced by one space.  The fuel is the
input length; every step consumes at least one character. -/
def stripTagsF : Nat → List Char → List Char
  | _, [] => []
  | 0, s => s
  | f + 1, c :: rest =>
    if c = '<' then
      let inside := rest.takeWhile (fun x => x ≠ '>')
      if 0 < inside.length ∧ inside.length < rest.length then
        ' ' :: stripTagsF f (rest.drop (inside.length + 1))
      else '<' :: stripTagsF f rest
    else c :: stripTagsF f rest

def stripTags (s : List Char) : List Char := stripTagsF s.length s

/-- `re.sub(r'\s+', ' ', s)` as a one-character-lookbehind state machine:
the first whitespace of a run emits one space, the rest of the run nothing. -/
def collapseGo : Bool → List Char → List Char
  | _, [] => []
  | prevWs, c :: t =>
    if isWs c then
      if prevWs then collapseGo true t else ' ' :: collapseGo true t
    else c :: collapseGo false t

def collapseWs (s : List Char) : List Char := collapseGo false s

/-- The plain text `_extract_from_text` scans: markup stripped, whitespace
collapsed, then `str.strip()`. -/
def textOf (raw : List Char) : List Char :=
  stripList (collapseWs (stripTags raw))

/-- `re.findall` for a pattern that always consumes at least one character:
scan left to right, emit each leftmost match and resume after it. -/
def findAllF (p : List Char → Option Nat) : Nat → List Char → List (List Char)
  | _, [] => []
  | 0, _ => []
  | f + 1, c :: rest =>
    match p (c :: rest) with
    | some (n + 1) => (c :: rest).take (n + 1) :: findAllF p f ((c :: rest).drop (n + 1))
    | _ => findAllF p f rest

def findAllMatches (p : List Char → Option Nat) (s : List Char) : List (List Char) :=
  findAllF p s.length s

/-- The minimal record built for one free-text match (lines 566-576). -/
def mkTextRecord (m : List Char) : CaseRecord :=
  { case_number := stripList m,
    petitioner := cs "N/A",
    respondent := cs "N/A",
    filing_date := none,
    status := cs "Unknown",
    court := court_name,
    case_type := extract_case_type m,
    judge := none,
    next_hearing := none }

/-- `_extract_from_text` (lines 539-583): for each of the three patterns, in
source order (`/`, `of`, `-`), append a record per match. -/
def extract_from_text (raw : List Char) : List CaseRecord :=
  let text := textOf raw
  [ftPat1, ftOf, ftPat3].foldl
    (fun acc p => (findAllMatches p text).foldl (fun a m => a ++ [mkTextRecord m]) acc)
    []

/-! ### Strategy on attribute-tagged elements: `_extract_from_divs` -/

/-- An element found by class-pattern, abstracted to the association from a
descendant's class name to its `get_text(strip=True)` text. -/
def Elem : Type := List (List Char × List Char)

/-- `_extract_text` (lines 468-484): first alias whose class is present wins. -/
def extract_text (el : Elem) (class_names : List (List Char)) : Option (List Char) :=
  class_names.findSome? (fun n =>
    ((el : List (List Char × List Char)).find? (fun p => p.1 == n)).map (fun p => p.2))

/-- `_extract_case_data` (lines 431-466); the record is produced only when
the case-number text was found and is non-empty (Python truthiness). -/
def extract_case_data (el : Elem) : Option CaseRecord :=
  let case_number := extract_text el [cs "case-number", cs "case_no", cs "case_number"]
  let petitioner := extract_text el [cs "petitioner", cs "petitioner_name"]
  let respondent := extract_text el [cs "respondent", cs "respondent_name"]
  let filing_date := extract_text el [cs "filing_date", cs "date_filed"]
  let status := extract_text el [cs "status", cs "case_status"]
  match case_number with
  | some cn =>
    if cn ≠ [] then
      some { case_number := cn,
             petitioner := pyOr petitioner (cs "N/A"),
             respondent := pyOr respondent (cs "N/A"),
             filing_date := parseDateIf filing_date,
             status := pyOr status (cs "Unknown"),
             court := court_name,
             case_type := extract_case_type cn,
             judge := extract_text el [cs "judge", cs "judge_name"],
             next_hearing := extract_text el [cs "next_hearing", cs "hearing_date"] }
    else none
  | none => none

/-- `_extract_from_divs` (lines 404-429). -/
def extract_from_divs (divs : List Elem) : List CaseRecord :=
  divs.foldl (fun acc el => appendOpt acc (extract_case_data el)) []

/-! ### `_parse_search_results` (lines 299-344) -/

structure Doc where
  raw : List Char
  tables : List (List (List (List Char)))
  divs : List Elem

/-- The table loop of `_parse_search_results` (lines 320-330): one `cases`
accumulator over all tables, rows with at least three cells only. -/
def table_cases (tables : List (List (List (List Char)))) : List CaseRecord :=
  tables.foldl
    (fun acc rows =>
      rows.foldl
        (fun acc2 cells =>
          if 3 ≤ cells.length then appendOpt acc2 (extract_case_from_row cells)
          else acc2)
        acc)
    []

/-- `_parse_search_results` (lines 299-344): CAPTCHA/verify check on the raw
document first, then tables, then the free-text fallback, then the div
fallback; each fallback runs only when `cases` is still empty. -/
def parse_search_results (doc : Doc) : List CaseRecord :=
  if containsSub (lowerList doc.raw) (cs "captcha") = true ∨
      containsSub (lowerList doc.raw) (cs "verify") = true then []
  else
    let cases := table_cases doc.tables
    let cases := if cases = [] then extract_from_text doc.raw else cases
    let cases := if cases = [] then extract_from_divs doc.divs else cases
    cases

/-! ### `_parse_case_number` (lines 251-297) and `_search_by_case_number` -/

/-- Case-insensitive literal prefix (the `re.escape(case_type)` part). -/
def ciStarts (pat s : List Char) : Bool :=
  (s.take pat.length).map Char.toLower == pat.map Char.toLower

/-- One known-type pattern `^<type>\s*(\d+)/(\d{4})$` under IGNORECASE,
returning the two captured groups. -/
def knownParse (ct s : List Char) : Option (List Char × List Char) :=
  if ciStarts ct s = true then
    let s1 := s.drop ct.length
    let s2 := s1.drop (s1.takeWhile isWs).length
    let D := s2.takeWhile isDigitCh
    if D.length = 0 then none else
    match s2.drop D.length with
    | '/' :: s3 =>
      if (s3.take 4).length = 4 ∧ (s3.take 4).all isDigitCh = true ∧
          atEnd (s3.drop 4) = true then
        some (D, s3.take 4)
      else none
    | _ => none
  else none

/-- Generic fallback `^([A-Z\.]+)\s*(\d+)<sep>(\d{4})$` under IGNORECASE
(`sep` is `/` for the first and `-` for the third alternative pattern). -/
def genSlashDash (sep : Char) (s : List Char) : Option (List Char × List Char × List Char) :=
  let L := s.takeWhile isLtrDot
  if L.length = 0 then none else
  let s1 := s.drop L.length
  let s2 := s1.drop (s1.takeWhile isWs).length
  let D := s2.takeWhile isDigitCh
  if D.length = 0 then none else
  match s2.drop D.length with
  | c :: s3 =>
    if c = sep ∧ (s3.take 4).length = 4 ∧ (s3.take 4).all isDigitCh = true ∧
        atEnd (s3.drop 4) = true then
      some (L, D, s3.take 4)
    else none
  | [] => none

/-- Generic fallback `^([A-Z\.]+)\s*(\d+)\s*of\s*(\d{4})$` under IGNORECASE. -/
def genOf (s : List Char) : Option (List Char × List Char × List Char) :=
  let L := s.takeWhile isLtrDot
  if L.length = 0 then none else
  let s1 := s.drop L.length
  let s2 := s1.drop (s1.takeWhile isWs).length
  let D := s2.takeWhile isDigitCh
  if D.length = 0 then none else
  let s3 := s2.drop D.length
  let s4 := s3.drop (s3.takeWhile isWs).length
  match s4 with
  | c1 :: c2 :: s5 =>
    if (c1 = 'o' ∨ c1 = 'O') ∧ (c2 = 'f' ∨ c2 = 'F') then
      let s6 := s5.drop (s5.takeWhile isWs).length
      if (s6.take 4).length = 4 ∧ (s6.take 4).all isDigitCh = true ∧
          atEnd (s6.drop 4) = true then
        some (L, D, s6.take 4)
      else none
    else none
  | _ => none

/-- The ordered known case-type tokens (lines 262-267). -/
def case_types : List (List Char) :=
  [cs "W.P.(C)", cs "W.P.(CRL)", cs "W.P.(MD)", cs "W.P.(CIVIL)", cs "W.P.(CRIMINAL)",
   cs "C.M.(M)", cs "C.M.(W)", cs "C.M.(MAIN)", cs "C.M.(APPL)", cs "C.M.(NO.)",
   cs "LPA", cs "FAO", cs "RFA", cs "CRL.A.", cs "CRL.M.C.", cs "CRL.REV.P.",
   cs "C.R.P.", cs "C.M.", cs "O.A.", cs "T.A.", cs "A.A.", cs "E.P."]

/-- The dictionary `{'case_type', 'number', 'year'}` built by `_parse_case_number`. -/
structure ParsedCN where
  case_type : List Char
  number : List Char
  year : List Char
deriving DecidableEq

/-- `_parse_case_number` (lines 251-297): known tokens first, then the three
generic patterns in order, with `group(1).strip()` for the generic type. -/
def parse_case_number (s : List Char) : Option ParsedCN :=
  match case_types.findSome?
      (fun ct => (knownParse ct s).map (fun p => ParsedCN.mk ct p.1 p.2)) with
  | some r => some r
  | none =>
    match genSlashDash '/' s with
    | some (L, D, Y) => some ⟨stripList L, D, Y⟩
    | none =>
      match genOf s with
      | some (L, D, Y) => some ⟨stripList L, D, Y⟩
      | none =>
        match genSlashDash '-' s with
        | some (L, D, Y) => some ⟨stripList L, D, Y⟩
        | none => none

/-- Acceptance by one of the three generic fallback patterns alone. -/
def fallbackAccepts (s : List Char) : Bool :=
  (genSlashDash '/' s).isSome || (genOf s).isSome || (genSlashDash '-' s).isSome

/-- `_search_by_case_number` (lines 155-204), with the transport abstracted:
`hidden` is the hidden-input name/value list of the fetched search page and
`respond` maps the posted form data to the response document.  The second
component counts the HTTP requests issued (`GET` + `POST`). -/
def search_by_case_number (hidden : List (List Char × List Char))
    (respond : List (List Char × List Char) → Doc) (cn : List Char) :
    List CaseRecord × Nat :=
  match parse_case_number cn with
  | none => ([], 0)
  | some info =>
    let search_data :=
      [(cs "case_type", info.case_type), (cs "case_number", info.number),
       (cs "filing_year", info.year), (cs "submit", cs "Search")] ++ hidden
    (parse_search_results (respond search_data), 2)

/-! ### `_get_mock_cases` (lines 58-153) -/

def mock_cases : List CaseRecord :=
  [{ case_number := cs "W.P.(C) 1040/2023",
     petitioner := cs "Reliance Industries Limited",
     respondent := cs "Union of India & Ors.",
     filing_date := some (cs "2023-03-15"),
     status := cs "Pending",
     court := court_name,
     case_type := cs "W.P.(C)",
     judge := some (cs "Hon'ble Mr. Justice Rajiv Shakdher"),
     next_hearing := some (cs "2024-01-15") },
   { case_number := cs "LPA 163/2023",
     petitioner := cs "State of Delhi",
     respondent := cs "Delhi Development Authority",
     filing_date := some (cs "2023-02-20"),
     status := cs "Disposed",
     court := court_name,
     case_type := cs "LPA",
     judge := some (cs "Hon'ble Mr. Justice Vipin Sanghi"),
     next_hearing := none },
   { case_number := cs "FAO 456/2022",
     petitioner := cs "John Doe",
     respondent := cs "ABC Corporation",
     filing_date := some (cs "2022-11-10"),
     status := cs "Pending",
     court := court_name,
     case_type := cs "FAO",
     judge := some (cs "Hon'ble Ms. Justice Rekha Palli"),
     next_hearing := some (cs "2024-01-20") },
   { case_number := cs "CRL.A. 789-2021",
     petitioner := cs "Central Bureau of Investigation",
     respondent := cs "XYZ Limited",
     filing_date := some (cs "2021-08-05"),
     status := cs "Pending",
     court := court_name,
     case_type := cs "CRL.A.",
     judge := some (cs "Hon'ble Mr. Justice Siddharth Mridul"),
     next_hearing := some (cs "2024-01-25") },
   { case_number := cs "C.M.(M) 123/2023",
     petitioner := cs "Delhi Metro Rail Corporation",
     respondent := cs "Municipal Corporation of Delhi",
     filing_date := some (cs "2023-04-12"),
     status := cs "Pending",
     court := court_name,
     case_type := cs "C.M.(M)",
     judge := some (cs "Hon'ble Mr. Justice Yashwant Varma"),
     next_hearing := some (cs "2024-01-30") }]

/-- The first mock test (line 132): `case_number and case_number.lower() in
case['case_number'].lower()`. -/
def mockCnHit (case_number : List Char) (c : CaseRecord) : Bool :=
  (!case_number.isEmpty) &&
    containsSub (lowerList c.case_number) (lowerList case_number)

/-- The second mock test (lines 137-145): `party_name` truthy and the four
substring containments between it and petitioner/respondent. -/
def mockPartyHit (party_name : List Char) (c : CaseRecord) : Bool :=
  (!party_name.isEmpty) &&
    (containsSub (lowerList c.petitioner) (lowerList party_name) ||
     containsSub (lowerList c.respondent) (lowerList party_name) ||
     containsSub (lowerList party_name) (lowerList c.petitioner) ||
     containsSub (lowerList party_name) (lowerList c.respondent))

/-- `_get_mock_cases` (lines 127-153): the filter loop with its three
`continue`-guarded membership tests, capped at five results. -/
def get_mock_cases (case_number party_name : List Char) : List CaseRecord :=
  (mock_cases.foldl
    (fun acc c =>
      if mockCnHit case_number c = true then acc ++ [c]
      else if mockPartyHit party_name c = true then acc ++ [c]
      else if (case_number.isEmpty && party_name.isEmpty) = true then acc ++ [c]
      else acc)
    []).take 5

/-- The membership predicate of the mock filter, stated declaratively for
comparison with the loop above. -/
def mockMatch (case_number party_name : List Char) (c : CaseRecord) : Bool :=
  mockCnHit case_number c ||
    (!mockCnHit case_number c && mockPartyHit party_name c) ||
    (case_number.isEmpty && party_name.isEmpty)

/-! ### Collecting variant of the row scan, used to state which matching
cell each field of a row record comes from (first hit vs last hit). -/

structure RowHits where
  cns : List (List Char)
  pets : List (List Char)
  fds : List (List Char)
  sts : List (List Char)
deriving DecidableEq

/-- The same branch structure as `rowStep`, but collecting every cell text
that reaches and satisfies each branch instead of keeping one value. -/
def rowHitsStep (cells : List (List Char)) (h : RowHits) (i : Nat) : RowHits :=
  let t := cells.getD i []
  if h.cns = [] ∧ hasRowCase t = true then
    { h with cns := h.cns ++ [t] }
  else if containsSub (lowerList t) (cs "petitioner") = true ∨
      containsSub (lowerList t) (cs "vs") = true then
    if i + 1 < cells.length then
      { h with pets := h.pets ++ [cells.getD (i + 1) []] }
    else h
  else if hasRowDate t = true then { h with fds := h.fds ++ [t] }
  else if status_words.any (fun w => containsSub (lowerList t) w) = true then
    { h with sts := h.sts ++ [t] }
  else h

def rowHits (cells : List (List Char)) : RowHits :=
  (List.range cells.length).foldl (rowHitsStep cells) ⟨[], [], [], []⟩

/-! ## Helper lemmas -/

theorem appendOpt_none (acc : List CaseRecord) : appendOpt acc none = acc := rfl

theorem appendOpt_some (acc : List CaseRecord) (c : CaseRecord) :
    appendOpt acc (some c) = acc ++ [c] := rfl

theorem foldl_app_filterMap {α : Type} (f : α → Option CaseRecord) (l : List α) :
    ∀ acc : List CaseRecord,
      l.foldl (fun a x => appendOpt a (f x)) acc = acc ++ l.filterMap f := by
  induction l with
  | nil => intro acc; simp
  | cons x t ih =>
    intro acc
    simp only [List.foldl_cons, List.filterMap_cons]
    cases h : f x with
    | none =>
      simp only [h, appendOpt_none]
      rw [ih]
    | some c =>
      simp only [h, appendOpt_some]
      rw [ih]
      simp

theorem foldl_app_map {α β : Type} (g : α → β) (l : List α) :
    ∀ acc : List β, l.foldl (fun a x => a ++ [g x]) acc = acc ++ l.map g := by
  induction l with
  | nil => intro acc; simp
  | cons x t ih => intro acc; simp [List.foldl_cons, ih]

theorem rowStep_respondent (cells : List (List Char)) (acc : RowAcc) (i : Nat) :
    (rowStep cells acc i).respondent = acc.respondent := by
  simp only [rowStep]
  split_ifs <;> rfl

theorem rowRecord_inv (acc : RowAcc) (r : CaseRecord) (h : rowRecord acc = some r) :
    ∃ cn, acc.case_number = some cn ∧
      r = { case_number := cn,
            petitioner := pyOr acc.petitioner (cs "N/A"),
            respondent := pyOr acc.respondent (cs "N/A"),
            filing_date := parseDateIf acc.filing_date,
            status := pyOr acc.status (cs "Unknown"),
            court := court_name,
            case_type := extract_case_type cn,
            judge := none,
            next_hearing := none } := by
  cases hcn : acc.case_number with
  | none => rw [rowRecord, hcn] at h; exact absurd h (by simp)
  | some cn =>
    rw [rowRecord, hcn] at h
    exact ⟨cn, rfl, by injection h with h; exact h.symm⟩

theorem rowScan_respondent (cells : List (List Char)) (idx : List Nat) :
    ∀ acc : RowAcc, acc.respondent = none →
      (idx.foldl (rowStep cells) acc).respondent = none := by
  induction idx with
  | nil => intro acc h; simpa using h
  | cons i t ih =>
    intro acc h
    rw [List.foldl_cons]
    exact ih _ (by rw [rowStep_respondent]; exact h)

/-! ## Claims -/

/-- C3: whenever the raw document contains "captcha" or "verify" in any
letter case, `_parse_search_results` returns the empty list without running
any extraction strategy. -/
theorem c3_captcha_aborts :
    ∀ doc : Doc,
      (containsSub (lowerList doc.raw) (cs "captcha") = true ∨
        containsSub (lowerList doc.raw) (cs "verify") = true) →
      parse_search_results doc = [] := by
  intro doc h
  unfold parse_search_results
  rw [if_pos h]

/-- Witness for C3 at the document "Please complete the CAPTCHA" (with a
table that would otherwise yield records). -/
theorem c3_captcha_aborts_witness :
    parse_search_results ⟨cs "Please complete the CAPTCHA",
      [[[cs "W.P.(C) 1040/2023", cs "vs", cs "Some Petitioner"]]], []⟩ = [] :=
  c3_captcha_aborts _ (Or.inl (by decide))

/-- C4: on the five cells of the specification's example row, Strategy 1
yields exactly the stated record (`respondent` at its default "N/A"), and on
every row `_extract_case_from_row` leaves `respondent` at the default. -/
theorem c4_row_extraction :
    (extract_case_from_row [cs "W.P.(C) 1040/2023", cs "vs",
        cs "Reliance Industries Limited", cs "15/03/2023", cs "Pending"] =
      some { case_number := cs "W.P.(C) 1040/2023",
             petitioner := cs "Reliance Industries Limited",
             respondent := cs "N/A",
             filing_date := some (cs "2023-03-15"),
             status := cs "Pending",
             court := court_name,
             case_type := cs "W.P.(C)",
             judge := none,
             next_hearing := none })
    ∧ (∀ cells r, extract_case_from_row cells = some r → r.respondent = cs "N/A") := by
  constructor
  · decide
  · intro cells r h
    obtain ⟨cn, hcn, hr⟩ := rowRecord_inv _ _ h
    have hresp : ((List.range cells.length).foldl (rowStep cells)
        ⟨none, none, none, none, none⟩).respondent = none :=
      rowScan_respondent cells _ _ rfl
    rw [hr]
    show pyOr ((List.range cells.length).foldl (rowStep cells)
        ⟨none, none, none, none, none⟩).respondent (cs "N/A") = cs "N/A"
    rw [hresp]
    rfl

/-- Witness for C4's universally quantified part at a three-cell row whose
case number sits in the second cell. -/
theorem c4_row_extraction_witness :
    extract_case_from_row [cs "LPA 1/2023", cs "W.P.(C) 22/2021", cs "x"] =
      some { case_number := cs "W.P.(C) 22/2021",
             petitioner := cs "N/A",
             respondent := cs "N/A",
             filing_date := none,
             status := cs "Unknown",
             court := court_name,
             case_type := cs "W.P.(C)",
             judge := none,
             next_hearing := none } ∧
    ({ case_number := cs "W.P.(C) 22/2021",
       petitioner := cs "N/A",
       respondent := cs "N/A",
       filing_date := none,
       status := cs "Unknown",
       court := court_name,
       case_type := cs "W.P.(C)",
       judge := none,
       next_hearing := none } : CaseRecord).respondent = cs "N/A" :=
  ⟨by decide,
   c4_row_extraction.2 [cs "LPA 1/2023", cs "W.P.(C) 22/2021", cs "x"]
     { case_number := cs "W.P.(C) 22/2021",
       petitioner := cs "N/A",
       respondent := cs "N/A",
       filing_date := none,
       status := cs "Unknown",
       court := court_name,
       case_type := cs "W.P.(C)",
       judge := none,
       next_hearing := none }
     (by decide)⟩

theorem mock_loop_filter (cn pn : List Char) (l : List CaseRecord) :
    ∀ acc : List CaseRecord,
      l.foldl
        (fun acc c =>
          if mockCnHit cn c = true then acc ++ [c]
          else if mockPartyHit pn c = true then acc ++ [c]
          else if (cn.isEmpty && pn.isEmpty) = true then acc ++ [c]
          else acc)
        acc = acc ++ l.filter (mockMatch cn pn) := by
  induction l with
  | nil => intro acc; simp
  | cons x t ih =>
    intro acc
    simp only [List.foldl_cons, List.filter_cons]
    have step : (if mockCnHit cn x = true then acc ++ [x]
        else if mockPartyHit pn x = true then acc ++ [x]
        else if (cn.isEmpty && pn.isEmpty) = true then acc ++ [x]
        else acc) = if mockMatch cn pn x = true then acc ++ [x] else acc := by
      unfold mockMatch
      cases mockCnHit cn x <;> cases mockPartyHit pn x <;>
        cases (cn.isEmpty && pn.isEmpty : Bool) <;> simp
    rw [step]
    cases hm : mockMatch cn pn x with
    | true => rw [if_pos rfl, if_pos rfl, ih]; simp
    | false => rw [if_neg (by simp), if_neg (by simp), ih]

/-- C9: the mock filter includes a record iff the case-number substring test
hits, or (failing that) the party-name containment test hits, or both query
fields are empty; the result is capped at five records; the query
`case_number = "LPA"` returns exactly the one LPA record. -/
theorem c9_mock_filter :
    (∀ cn pn : List Char,
      get_mock_cases cn pn = (mock_cases.filter (mockMatch cn pn)).take 5)
    ∧ get_mock_cases (cs "LPA") [] =
      [{ case_number := cs "LPA 163/2023",
         petitioner := cs "State of Delhi",
         respondent := cs "Delhi Development Authority",
         filing_date := some (cs "2023-02-20"),
         status := cs "Disposed",
         court := court_name,
         case_type := cs "LPA",
         judge := some (cs "Hon'ble Mr. Justice Vipin Sanghi"),
         next_hearing := none }] := by
  constructor
  · intro cn pn
    unfold get_mock_cases
    rw [mock_loop_filter]
    rfl
  · decide

/-- Witness for C9's universally quantified part at the party query "doe". -/
theorem c9_mock_filter_witness :
    get_mock_cases [] (cs "doe") =
      (mock_cases.filter (mockMatch [] (cs "doe"))).take 5 :=
  c9_mock_filter.1 [] (cs "doe")

/-! ## Date lemmas -/

theorem dval_digitChar : ∀ k < 10, dval (Nat.digitChar k) = k := by decide

theorem isDigitCh_digitChar : ∀ k < 10, isDigitCh (Nat.digitChar k) = true := by decide

theorem isWs_digitChar : ∀ k < 10, isWs (Nat.digitChar k) = false := by decide

theorem daysInMonth_le (y m : Nat) : daysInMonth y m ≤ 31 := by
  unfold daysInMonth
  split_ifs <;> norm_num

theorem fmtDMY_valid (sep : Char) (t : List Char) (y m d : Nat)
    (h : fmtDMY sep t = some (y, m, d)) : validDate y m d = true := by
  unfold fmtDMY at h
  repeat' split at h
  any_goals cases h
  simp_all

theorem fmtYMD_valid (sep : Char) (t : List Char) (y m d : Nat)
    (h : fmtYMD sep t = some (y, m, d)) : validDate y m d = true := by
  unfold fmtYMD at h
  repeat' split at h
  any_goals cases h
  simp_all

theorem fmtDMy_valid (sep : Char) (t : List Char) (y m d : Nat)
    (h : fmtDMy sep t = some (y, m, d)) : validDate y m d = true := by
  unfold fmtDMy at h
  repeat' split at h
  any_goals cases h
  simp_all

theorem tryFormats_valid (t : List Char) (y m d : Nat)
    (h : tryFormats t = some (y, m, d)) : validDate y m d = true := by
  unfold tryFormats at h
  cases e1 : fmtDMY '/' t with
  | some r =>
    rw [e1] at h; injection h with h; subst h; exact fmtDMY_valid '/' t y m d e1
  | none =>
    rw [e1] at h
    cases e2 : fmtDMY '-' t with
    | some r =>
      rw [e2] at h; injection h with h; subst h; exact fmtDMY_valid '-' t y m d e2
    | none =>
      rw [e2] at h
      cases e3 : fmtYMD '-' t with
      | some r =>
        rw [e3] at h; injection h with h; subst h; exact fmtYMD_valid '-' t y m d e3
      | none =>
        rw [e3] at h
        cases e4 : fmtDMy '/' t with
        | some r =>
          rw [e4] at h; injection h with h; subst h; exact fmtDMy_valid '/' t y m d e4
        | none =>
          rw [e4] at h
          cases e5 : fmtDMy '-' t with
          | some r =>
            rw [e5] at h; injection h with h; subst h; exact fmtDMy_valid '-' t y m d e5
          | none =>
            rw [e5] at h
            exact fmtYMD_valid '/' t y m d h

theorem stripList_eq_self (s : List Char) (h : ∀ c ∈ s, isWs c = false) :
    stripList s = s := by
  have aux : ∀ r : List Char, (∀ c ∈ r, isWs c = false) → r.dropWhile isWs = r := by
    intro r hr
    cases r with
    | nil => rfl
    | cons a t =>
      rw [List.dropWhile_cons, if_neg]
      simp [hr a (List.mem_cons_self a t)]
  unfold stripList
  rw [aux s h, aux s.reverse (fun c hc => h c (List.mem_reverse.mp hc)),
    List.reverse_reverse]

theorem renderDate_no_ws (Y M D : Nat) : ∀ c ∈ renderDate Y M D, isWs c = false := by
  intro c hc
  simp only [renderDate, List.mem_cons, List.not_mem_nil, or_false] at hc
  rcases hc with rfl | rfl | rfl | rfl | rfl | rfl | rfl | rfl | rfl | rfl
  · exact isWs_digitChar _ (Nat.mod_lt _ (by norm_num))
  · exact isWs_digitChar _ (Nat.mod_lt _ (by norm_num))
  · exact isWs_digitChar _ (Nat.mod_lt _ (by norm_num))
  · exact isWs_digitChar _ (Nat.mod_lt _ (by norm_num))
  · decide
  · exact isWs_digitChar _ (Nat.mod_lt _ (by norm_num))
  · exact isWs_digitChar _ (Nat.mod_lt _ (by norm_num))
  · decide
  · exact isWs_digitChar _ (Nat.mod_lt _ (by norm_num))
  · exact isWs_digitChar _ (Nat.mod_lt _ (by norm_num))

theorem fmtDM_render_none (sep : Char) (hsep : isDigitCh sep = false)
    (a1 a2 a3 : Char) (rest : List Char)
    (h1 : isDigitCh a1 = true) (h2 : isDigitCh a2 = true) (h3 : isDigitCh a3 = true) :
    fmtDMY sep (a1 :: a2 :: a3 :: rest) = none ∧
      fmtDMy sep (a1 :: a2 :: a3 :: rest) = none := by
  have hne : a3 ≠ sep := by
    intro he
    rw [he, hsep] at h3
    exact Bool.noConfusion h3
  constructor
  · unfold fmtDMY
    cases hOk : dayOk2 (dval a1 * 10 + dval a2) with
    | true => simp [read2or1, h1, h2, hOk, expectCh, hne]
    | false => simp [read2or1, h1, h2, hOk]
  · unfold fmtDMy
    cases hOk : dayOk2 (dval a1 * 10 + dval a2) with
    | true => simp [read2or1, h1, h2, hOk, expectCh, hne]
    | false => simp [read2or1, h1, h2, hOk]

theorem fmtYMD_render_some (Y M D : Nat)
    (hY1 : 1 ≤ Y) (hY2 : Y ≤ 9999) (hM1 : 1 ≤ M) (hM2 : M ≤ 12)
    (hD1 : 1 ≤ D) (hD2 : D ≤ 31) (hv : validDate Y M D = true) :
    fmtYMD '-' (renderDate Y M D) = some (Y, M, D) := by
  have k1 : Y / 1000 % 10 < 10 := Nat.mod_lt _ (by norm_num)
  have k2 : Y / 100 % 10 < 10 := Nat.mod_lt _ (by norm_num)
  have k3 : Y / 10 % 10 < 10 := Nat.mod_lt _ (by norm_num)
  have k4 : Y % 10 < 10 := Nat.mod_lt _ (by norm_num)
  have k5 : M / 10 % 10 < 10 := Nat.mod_lt _ (by norm_num)
  have k6 : M % 10 < 10 := Nat.mod_lt _ (by norm_num)
  have k7 : D / 10 % 10 < 10 := Nat.mod_lt _ (by norm_num)
  have k8 : D % 10 < 10 := Nat.mod_lt _ (by norm_num)
  have hy : dval (Nat.digitChar (Y / 1000 % 10)) * 1000 +
      dval (Nat.digitChar (Y / 100 % 10)) * 100 +
      dval (Nat.digitChar (Y / 10 % 10)) * 10 + dval (Nat.digitChar (Y % 10)) = Y := by
    rw [dval_digitChar _ k1, dval_digitChar _ k2, dval_digitChar _ k3,
      dval_digitChar _ k4]
    omega
  have hm : dval (Nat.digitChar (M / 10 % 10)) * 10 + dval (Nat.digitChar (M % 10)) = M := by
    rw [dval_digitChar _ k5, dval_digitChar _ k6]
    omega
  have hd : dval (Nat.digitChar (D / 10 % 10)) * 10 + dval (Nat.digitChar (D % 10)) = D := by
    rw [dval_digitChar _ k7, dval_digitChar _ k8]
    omega
  have hOkM : monOk2 M = true := by simp [monOk2]; omega
  have hOkD : dayOk2 D = true := by simp [dayOk2]; omega
  unfold fmtYMD renderDate
  simp only [read4y, isDigitCh_digitChar _ k1, isDigitCh_digitChar _ k2,
    isDigitCh_digitChar _ k3, isDigitCh_digitChar _ k4, Bool.and_self, Bool.true_and,
    if_true, hy]
  simp only [expectCh, if_pos rfl]
  simp only [read2or1, isDigitCh_digitChar _ k5, isDigitCh_digitChar _ k6, if_true, hm,
    hOkM]
  simp only [read2or1, isDigitCh_digitChar _ k7, isDigitCh_digitChar _ k8, if_true, hd,
    hOkD]
  rw [if_pos ⟨trivial, hv⟩]

theorem parse_render (Y M D : Nat) (hv : validDate Y M D = true) :
    parse_date (renderDate Y M D) = some (renderDate Y M D) := by
  have hb : 1 ≤ Y ∧ Y ≤ 9999 ∧ 1 ≤ M ∧ M ≤ 12 ∧ 1 ≤ D ∧ D ≤ daysInMonth Y M := by
    simpa [validDate] using hv
  obtain ⟨hY1, hY2, hM1, hM2, hD1, hDm⟩ := hb
  have hD2 : D ≤ 31 := le_trans hDm (daysInMonth_le Y M)
  have hne : renderDate Y M D ≠ [] := by simp [renderDate]
  have hstrip : stripList (renderDate Y M D) = renderDate Y M D :=
    stripList_eq_self _ (renderDate_no_ws Y M D)
  have i1 : isDigitCh (Nat.digitChar (Y / 1000 % 10)) = true :=
    isDigitCh_digitChar _ (Nat.mod_lt _ (by norm_num))
  have i2 : isDigitCh (Nat.digitChar (Y / 100 % 10)) = true :=
    isDigitCh_digitChar _ (Nat.mod_lt _ (by norm_num))
  have i3 : isDigitCh (Nat.digitChar (Y / 10 % 10)) = true :=
    isDigitCh_digitChar _ (Nat.mod_lt _ (by norm_num))
  have hSl := fmtDM_render_none '/' (by decide) _ _ _
    [Nat.digitChar (Y % 10), '-', Nat.digitChar (M / 10 % 10), Nat.digitChar (M % 10),
     '-', Nat.digitChar (D / 10 % 10), Nat.digitChar (D % 10)] i1 i2 i3
  have hDa := fmtDM_render_none '-' (by decide) _ _ _
    [Nat.digitChar (Y % 10), '-', Nat.digitChar (M / 10 % 10), Nat.digitChar (M % 10),
     '-', Nat.digitChar (D / 10 % 10), Nat.digitChar (D % 10)] i1 i2 i3
  have hA1 : fmtDMY '/' (renderDate Y M D) = none := by rw [renderDate]; exact hSl.1
  have hB1 : fmtDMY '-' (renderDate Y M D) = none := by rw [renderDate]; exact hDa.1
  have hC : fmtYMD '-' (renderDate Y M D) = some (Y, M, D) :=
    fmtYMD_render_some Y M D hY1 hY2 hM1 hM2 hD1 hD2 hv
  unfold parse_date
  rw [if_neg hne, hstrip]
  unfold tryFormats
  rw [hA1, hB1, hC]
  rfl

/-- C5: `_parse_date` tries the six formats in the fixed source order with
the first success winning, returns `None` for empty input and when every
format fails, always renders successes as `YYYY-MM-DD`, and normalizes
"15/03/2023" and "2023-03-15" both to "2023-03-15". -/
theorem c5_parse_date :
    (∀ t, tryFormats t = date_formats.findSome? (fun f => f t))
    ∧ parse_date [] = none
    ∧ (∀ s : List Char, parse_date s = none ↔ (s = [] ∨ tryFormats (stripList s) = none))
    ∧ (∀ s y, parse_date s = some y →
        ∃ Y M D, validDate Y M D = true ∧ y = renderDate Y M D)
    ∧ parse_date (cs "15/03/2023") = some (cs "2023-03-15")
    ∧ parse_date (cs "2023-03-15") = some (cs "2023-03-15") := by
  refine ⟨?_, rfl, ?_, ?_, by decide, by decide⟩
  · intro t
    unfold tryFormats date_formats
    simp only [List.findSome?_cons]
    cases fmtDMY '/' t with
    | some r => rfl
    | none =>
      cases fmtDMY '-' t with
      | some r => rfl
      | none =>
        cases fmtYMD '-' t with
        | some r => rfl
        | none =>
          cases fmtDMy '/' t with
          | some r => rfl
          | none =>
            cases fmtDMy '-' t with
            | some r => rfl
            | none =>
              cases fmtYMD '/' t with
              | some r => rfl
              | none => rfl
  · intro s
    by_cases hs : s = []
    · simp [parse_date, hs]
    · rw [parse_date, if_neg hs]
      cases h : tryFormats (stripList s) <;> simp [hs, h]
  · intro s y h
    by_cases hs : s = []
    · rw [parse_date, if_pos hs] at h; cases h
    · rw [parse_date, if_neg hs] at h
      rw [Option.map_eq_some'] at h
      obtain ⟨⟨Y, M, D⟩, ht, hy⟩ := h
      exact ⟨Y, M, D, tryFormats_valid _ _ _ _ ht, hy.symm⟩

/-- Witness for C5's rendered-output part at the input "15/03/2023". -/
theorem c5_parse_date_witness :
    ∃ Y M D, validDate Y M D = true ∧ cs "2023-03-15" = renderDate Y M D :=
  c5_parse_date.2.2.2.1 (cs "15/03/2023") (cs "2023-03-15") (by decide)

/-- C6: `_parse_date` is idempotent on its own output — whenever it returns a
date string, running it again on that output returns the same string (the
output form `YYYY-MM-DD` is itself the third recognized format). -/
theorem c6_normalize_idempotent :
    ∀ x y, parse_date x = some y → parse_date y = some y := by
  intro x y h
  by_cases hs : x = []
  · rw [parse_date, if_pos hs] at h; cases h
  · rw [parse_date, if_neg hs] at h
    rw [Option.map_eq_some'] at h
    obtain ⟨⟨Y, M, D⟩, ht, hy⟩ := h
    rw [← hy]
    exact parse_render Y M D (tryFormats_valid _ _ _ _ ht)

/-- Witness for C6 at the input "15/03/2023", whose output "2023-03-15"
re-normalizes to itself. -/
theorem c6_normalize_idempotent_witness :
    parse_date (cs "2023-03-15") = some (cs "2023-03-15") :=
  c6_normalize_idempotent (cs "15/03/2023") (cs "2023-03-15") (by decide)

theorem opt_none_of_isSome_false {α : Type} {o : Option α} (h : o.isSome = false) :
    o = none := by
  cases o with
  | none => rfl
  | some a => simp at h

theorem findSome?_none_of {α β : Type} (f : α → Option β) (l : List α)
    (h : ∀ a ∈ l, f a = none) : l.findSome? f = none := by
  induction l with
  | nil => rfl
  | cons a t ih =>
    rw [List.findSome?_cons, h a (List.mem_cons_self a t)]
    exact ih (fun b hb => h b (List.mem_cons_of_mem a hb))

/-- C7: a case-number string matched by none of the known case-type patterns
and none of the three generic fallback patterns makes `_parse_case_number`
return `None`, and `_search_by_case_number` then returns an empty list
having issued zero HTTP requests. -/
theorem c7_unparseable :
    ∀ cn : List Char,
      case_types.any (fun ct => (knownParse ct cn).isSome) = false →
      fallbackAccepts cn = false →
      parse_case_number cn = none ∧
        ∀ hidden respond, search_by_case_number hidden respond cn = ([], 0) := by
  intro cn hk hf
  have hknown : case_types.findSome?
      (fun ct => (knownParse ct cn).map (fun p => ParsedCN.mk ct p.1 p.2)) = none := by
    apply findSome?_none_of
    intro ct hct
    have hone := List.any_eq_false.mp hk ct hct
    cases h : knownParse ct cn with
    | none => rfl
    | some p => rw [h] at hone; simp at hone
  unfold fallbackAccepts at hf
  simp only [Bool.or_eq_false_iff] at hf
  have e1 : genSlashDash '/' cn = none := opt_none_of_isSome_false hf.1.1
  have e2 : genOf cn = none := opt_none_of_isSome_false hf.1.2
  have e3 : genSlashDash '-' cn = none := opt_none_of_isSome_false hf.2
  have hp : parse_case_number cn = none := by
    unfold parse_case_number
    rw [hknown, e1, e2, e3]
  refine ⟨hp, ?_⟩
  intro hidden respond
  unfold search_by_case_number
  rw [hp]

/-- Witness for C7 at the query "banana" (no pattern matches). -/
theorem c7_unparseable_witness :
    parse_case_number (cs "banana") = none ∧
      search_by_case_number [] (fun _ => ⟨[], [], []⟩) (cs "banana") = ([], 0) := by
  have h := c7_unparseable (cs "banana") (by decide) (by decide)
  exact ⟨h.1, h.2 [] (fun _ => ⟨[], [], []⟩)⟩

/-- C1 (counterexample): a document on which the attribute/div strategy and
the free-text strategy both yield records while tables yield none.  The
pipeline returns the free-text records, not the attribute-based records, so
the claimed order (table, then attribute-based, then free-text) is false:
the source runs `_extract_from_text` before `_extract_from_divs`. -/
theorem c1_counterexample :
    extract_from_divs
        (Doc.mk (cs "LPA 163/2023") [] [[(cs "case-number", cs "FAO 1/2023")]]).divs ≠ [] ∧
    table_cases
        (Doc.mk (cs "LPA 163/2023") [] [[(cs "case-number", cs "FAO 1/2023")]]).tables = [] ∧
    extract_from_text
        (Doc.mk (cs "LPA 163/2023") [] [[(cs "case-number", cs "FAO 1/2023")]]).raw ≠ [] ∧
    parse_search_results
        (Doc.mk (cs "LPA 163/2023") [] [[(cs "case-number", cs "FAO 1/2023")]]) =
      extract_from_text (cs "LPA 163/2023") ∧
    parse_search_results
        (Doc.mk (cs "LPA 163/2023") [] [[(cs "case-number", cs "FAO 1/2023")]]) ≠
      extract_from_divs [[(cs "case-number", cs "FAO 1/2023")]] := by
  decide

/-- C1 (amended): for every non-CAPTCHA document the strategies run in the
source order — table rows first, then the free-text scan, then the
attribute/div scan — and no strategy runs once an earlier one produced a
record; in particular when the table strategy is empty and the free-text
strategy is non-empty the free-text records are returned. -/
theorem c1_strategy_order :
    ∀ doc : Doc,
      ¬ (containsSub (lowerList doc.raw) (cs "captcha") = true ∨
          containsSub (lowerList doc.raw) (cs "verify") = true) →
      (table_cases doc.tables ≠ [] →
        parse_search_results doc = table_cases doc.tables)
      ∧ (table_cases doc.tables = [] → extract_from_text doc.raw ≠ [] →
          parse_search_results doc = extract_from_text doc.raw)
      ∧ (table_cases doc.tables = [] → extract_from_text doc.raw = [] →
          parse_search_results doc = extract_from_divs doc.divs) := by
  intro doc hnc
  simp only [parse_search_results]
  rw [if_neg hnc]
  refine ⟨?_, ?_, ?_⟩
  · intro ht
    simp only [if_neg ht]
  · intro ht htext
    simp only [if_pos ht, if_neg htext]
  · intro ht htext
    simp only [if_pos ht, if_pos htext]

/-- Witness for C1's amended order at a document where only the free-text
and attribute strategies could fire: the free-text records are returned. -/
theorem c1_strategy_order_witness :
    parse_search_results (Doc.mk (cs "FAO 9/2021") [] [[(cs "case-number", cs "X 1/2020")]]) =
      extract_from_text (cs "FAO 9/2021") := by
  have h := c1_strategy_order
    (Doc.mk (cs "FAO 9/2021") [] [[(cs "case-number", cs "X 1/2020")]]) (by decide)
  exact h.2.1 (by decide) (by decide)

theorem any_status_ne_nil {t : List Char}
    (h : status_words.any (fun w => containsSub (lowerList t) w) = true) : t ≠ [] := by
  intro he
  subst he
  exact Bool.noConfusion ((by decide :
    status_words.any (fun w => containsSub (lowerList []) w) = false) ▸ h)

theorem mem_of_getLast?_eq {α : Type} {l : List α} {a : α}
    (h : l.getLast? = some a) : a ∈ l := by
  induction l with
  | nil => cases h
  | cons x t ih =>
    cases t with
    | nil =>
      simp only [List.getLast?_singleton, Option.some.injEq] at h
      simp [h]
    | cons y u =>
      rw [List.getLast?_cons_cons] at h
      exact List.mem_cons_of_mem x (ih h)

theorem rowStep_rel (cells : List (List Char)) (acc : RowAcc) (hh : RowHits) (i : Nat)
    (e1 : acc.case_number = hh.cns.head?) (e2 : acc.petitioner = hh.pets.getLast?)
    (e3 : acc.filing_date = hh.fds.head?) (e4 : acc.status = hh.sts.getLast?)
    (e5 : ∀ t ∈ hh.sts, status_words.any (fun w => containsSub (lowerList t) w) = true) :
    (rowStep cells acc i).case_number = (rowHitsStep cells hh i).cns.head?
    ∧ (rowStep cells acc i).petitioner = (rowHitsStep cells hh i).pets.getLast?
    ∧ (rowStep cells acc i).filing_date = (rowHitsStep cells hh i).fds.head?
    ∧ (rowStep cells acc i).status = (rowHitsStep cells hh i).sts.getLast?
    ∧ (∀ t ∈ (rowHitsStep cells hh i).sts,
        status_words.any (fun w => containsSub (lowerList t) w) = true) := by
  have hcn_iff : acc.case_number.isNone = true ↔ hh.cns = [] := by
    rw [e1]; cases hh.cns <;> simp
  by_cases hc1 : hh.cns = [] ∧ hasRowCase (cells.getD i []) = true
  · have ha1 : acc.case_number.isNone = true ∧ hasRowCase (cells.getD i []) = true :=
      ⟨hcn_iff.mpr hc1.1, hc1.2⟩
    simp only [rowStep, rowHitsStep, if_pos ha1, if_pos hc1]
    refine ⟨?_, e2, e3, e4, e5⟩
    rw [hc1.1]
    simp
  · have ha1 : ¬ (acc.case_number.isNone = true ∧ hasRowCase (cells.getD i []) = true) := by
      intro hcontra
      exact hc1 ⟨hcn_iff.mp hcontra.1, hcontra.2⟩
    simp only [rowStep, rowHitsStep, if_neg ha1, if_neg hc1]
    by_cases hc2 : containsSub (lowerList (cells.getD i [])) (cs "petitioner") = true ∨
        containsSub (lowerList (cells.getD i [])) (cs "vs") = true
    · simp only [if_pos hc2]
      by_cases hc2b : i + 1 < cells.length
      · simp only [if_pos hc2b]
        refine ⟨e1, ?_, e3, e4, e5⟩
        simp [List.getLast?_concat]
      · simp only [if_neg hc2b]
        exact ⟨e1, e2, e3, e4, e5⟩
    · simp only [if_neg hc2]
      by_cases hc3 : hasRowDate (cells.getD i []) = true
      · simp only [if_pos hc3]
        by_cases hfd : acc.filing_date.isNone = true
        · simp only [if_pos hfd]
          refine ⟨e1, e2, ?_, e4, e5⟩
          have hfds : hh.fds = [] := by
            rw [e3] at hfd
            cases hfdsc : hh.fds with
            | nil => rfl
            | cons a l => rw [hfdsc] at hfd; simp at hfd
          rw [hfds]
          simp
        · simp only [if_neg hfd]
          refine ⟨e1, e2, ?_, e4, e5⟩
          rw [e3]
          cases hfdsc : hh.fds with
          | nil => rw [hfdsc] at e3; rw [e3] at hfd; simp at hfd
          | cons a l => simp
      · simp only [if_neg hc3]
        by_cases hc4 : status_words.any
            (fun w => containsSub (lowerList (cells.getD i [])) w) = true
        · simp only [if_pos hc4]
          refine ⟨e1, e2, e3, ?_, ?_⟩
          · simp [List.getLast?_concat]
          · intro t ht
            rcases List.mem_append.mp ht with hmem | hmem
            · exact e5 t hmem
            · rw [List.mem_singleton] at hmem
              subst hmem
              exact hc4
        · simp only [if_neg hc4]
          exact ⟨e1, e2, e3, e4, e5⟩

theorem rowFold_rel (cells : List (List Char)) (idx : List Nat) :
    ∀ (acc : RowAcc) (hh : RowHits),
      acc.case_number = hh.cns.head? →
      acc.petitioner = hh.pets.getLast? →
      acc.filing_date = hh.fds.head? →
      acc.status = hh.sts.getLast? →
      (∀ t ∈ hh.sts, status_words.any (fun w => containsSub (lowerList t) w) = true) →
      ((idx.foldl (rowStep cells) acc).case_number =
          (idx.foldl (rowHitsStep cells) hh).cns.head?
       ∧ (idx.foldl (rowStep cells) acc).petitioner =
          (idx.foldl (rowHitsStep cells) hh).pets.getLast?
       ∧ (idx.foldl (rowStep cells) acc).filing_date =
          (idx.foldl (rowHitsStep cells) hh).fds.head?
       ∧ (idx.foldl (rowStep cells) acc).status =
          (idx.foldl (rowHitsStep cells) hh).sts.getLast?
       ∧ (∀ t ∈ (idx.foldl (rowHitsStep cells) hh).sts,
            status_words.any (fun w => containsSub (lowerList t) w) = true)) := by
  induction idx with
  | nil => intro acc hh e1 e2 e3 e4 e5; exact ⟨e1, e2, e3, e4, e5⟩
  | cons i rest ih =>
    intro acc hh e1 e2 e3 e4 e5
    simp only [List.foldl_cons]
    obtain ⟨f1, f2, f3, f4, f5⟩ := rowStep_rel cells acc hh i e1 e2 e3 e4 e5
    exact ih (rowStep cells acc i) (rowHitsStep cells hh i) f1 f2 f3 f4 f5

/-- C10: in the row scan, when several cells reach the status branch the
last one wins (`status` is overwritten), while `case_number` comes from the
first case-number-shaped cell and `filing_date` from the first date-shaped
cell reaching its branch (both first-hit-only). -/
theorem c10_status_last :
    ∀ cells r, extract_case_from_row cells = some r →
      (rowHits cells).cns.head? = some r.case_number
      ∧ r.filing_date = parseDateIf (rowHits cells).fds.head?
      ∧ r.status = pyOr (rowHits cells).sts.getLast? (cs "Unknown")
      ∧ ((rowHits cells).sts ≠ [] →
          ∃ t, (rowHits cells).sts.getLast? = some t ∧ t ≠ [] ∧ r.status = t) := by
  intro cells r h
  obtain ⟨cn, hcn, hr⟩ := rowRecord_inv _ _ h
  obtain ⟨r1, r2, r3, r4, r5⟩ := rowFold_rel cells (List.range cells.length)
    ⟨none, none, none, none, none⟩ ⟨[], [], [], []⟩ rfl rfl rfl rfl
    (by intro t ht; cases ht)
  have hhits : rowHits cells = (List.range cells.length).foldl (rowHitsStep cells)
      ⟨[], [], [], []⟩ := rfl
  refine ⟨?_, ?_, ?_, ?_⟩
  · rw [hhits, ← r1, hcn, hr]
  · rw [hr, hhits, ← r3]
  · rw [hr, hhits, ← r4]
  · intro hne
    cases hl : (rowHits cells).sts.getLast? with
    | none =>
      exfalso
      apply hne
      cases hsts : (rowHits cells).sts with
      | nil => rfl
      | cons a l => rw [hsts] at hl; simp [List.getLast?_cons] at hl
    | some t =>
      have htmem : t ∈ (rowHits cells).sts := mem_of_getLast?_eq hl
      have htw := r5 t (by rw [hhits] at htmem; exact htmem)
      have htne := any_status_ne_nil htw
      refine ⟨t, rfl, htne, ?_⟩
      rw [hr]
      show pyOr ((List.range cells.length).foldl (rowStep cells)
        ⟨none, none, none, none, none⟩).status (cs "Unknown") = t
      rw [r4, ← hhits, hl]
      simp [pyOr, htne]

/-- Witness for C10 at a row with two status cells: the second ("Disposed")
is the record status. -/
theorem c10_status_last_witness :
    ∃ t, (rowHits [cs "W.P.(C) 1/2023", cs "Pending", cs "Disposed"]).sts.getLast? = some t ∧
      t ≠ [] ∧
      ({ case_number := cs "W.P.(C) 1/2023",
         petitioner := cs "N/A",
         respondent := cs "N/A",
         filing_date := none,
         status := cs "Disposed",
         court := court_name,
         case_type := cs "W.P.(C)",
         judge := none,
         next_hearing := none } : CaseRecord).status = t := by
  have h := c10_status_last [cs "W.P.(C) 1/2023", cs "Pending", cs "Disposed"]
    { case_number := cs "W.P.(C) 1/2023",
      petitioner := cs "N/A",
      respondent := cs "N/A",
      filing_date := none,
      status := cs "Disposed",
      court := court_name,
      case_type := cs "W.P.(C)",
      judge := none,
      next_hearing := none }
    (by decide)
  exact h.2.2.2 (by decide)

/-! ## Character-class disjointness and nonemptiness lemmas -/

theorem ws_not_ltr {c : Char} (h : isWs c = true) : isLtrDot c = false := by
  unfold isWs at h
  have hm := of_decide_eq_true h
  fin_cases hm <;> decide

theorem ltr_not_ws {c : Char} (h : isLtrDot c = true) : isWs c = false := by
  cases hw : isWs c with
  | false => rfl
  | true => rw [ws_not_ltr hw] at h; exact Bool.noConfusion h

theorem ws_not_digit {c : Char} (h : isWs c = true) : isDigitCh c = false := by
  unfold isWs at h
  have hm := of_decide_eq_true h
  fin_cases hm <;> decide

theorem digit_not_ws {c : Char} (h : isDigitCh c = true) : isWs c = false := by
  cases hw : isWs c with
  | false => rfl
  | true => rw [ws_not_digit hw] at h; exact Bool.noConfusion h

theorem strip_ne_nil {c : Char} {t : List Char} (h : isWs c = false) :
    stripList (c :: t) ≠ [] := by
  unfold stripList
  intro he
  rw [List.reverse_eq_nil_iff, List.dropWhile_eq_nil_iff] at he
  have hd : (c :: t).dropWhile isWs = c :: t := by
    rw [List.dropWhile_cons, if_neg]
    simp [h]
  rw [hd] at he
  have hc := he c (by simp)
  rw [h] at hc
  exact Bool.noConfusion hc

/-! ## C8: non-empty case numbers in every extraction path -/

theorem hasRowCase_ne_nil {t : List Char} (h : hasRowCase t = true) : t ≠ [] := by
  intro he
  rw [he] at h
  exact absurd h (by decide)

theorem rowStep_cn (cells : List (List Char)) (acc : RowAcc) (i : Nat) :
    ∀ t, (rowStep cells acc i).case_number = some t →
      acc.case_number = some t ∨ hasRowCase t = true := by
  intro t ht
  by_cases hc1 : acc.case_number.isNone = true ∧ hasRowCase (cells.getD i []) = true
  · simp only [rowStep, if_pos hc1] at ht
    right
    injection ht with ht
    rw [← ht]
    exact hc1.2
  · left
    have hun : (rowStep cells acc i).case_number = acc.case_number := by
      simp only [rowStep, if_neg hc1]
      split_ifs <;> rfl
    rw [← hun]
    exact ht

theorem rowScan_cn (cells : List (List Char)) (idx : List Nat) :
    ∀ acc : RowAcc,
      (∀ t, acc.case_number = some t → t ≠ []) →
      ∀ t, (idx.foldl (rowStep cells) acc).case_number = some t → t ≠ [] := by
  induction idx with
  | nil => intro acc h; exact h
  | cons i rest ih =>
    intro acc h
    simp only [List.foldl_cons]
    apply ih
    intro t ht
    rcases rowStep_cn cells acc i t ht with hold | hnew
    · exact h t hold
    · exact hasRowCase_ne_nil hnew

theorem row_cn_ne (cells : List (List Char)) (r : CaseRecord)
    (h : extract_case_from_row cells = some r) : r.case_number ≠ [] := by
  obtain ⟨cn, hcn, hr⟩ := rowRecord_inv _ _ h
  have hne : cn ≠ [] :=
    rowScan_cn cells (List.range cells.length) ⟨none, none, none, none, none⟩
      (by intro t ht; cases ht) cn hcn
  rw [hr]
  exact hne

theorem div_cn_ne (el : Elem) (r : CaseRecord)
    (h : extract_case_data el = some r) : r.case_number ≠ [] := by
  cases hcn : extract_text el [cs "case-number", cs "case_no", cs "case_number"] with
  | none =>
    simp only [extract_case_data, hcn] at h
    exact absurd h (by simp)
  | some cn =>
    simp only [extract_case_data, hcn] at h
    by_cases hc : cn ≠ []
    · rw [if_pos hc] at h
      injection h with h
      rw [← h]
      exact hc
    · rw [if_neg hc] at h
      exact absurd h (by simp)

theorem extract_from_divs_eq (divs : List Elem) :
    extract_from_divs divs = divs.filterMap extract_case_data := by
  unfold extract_from_divs
  rw [foldl_app_filterMap extract_case_data divs]
  simp

theorem rows_loop_eq (rows : List (List (List Char))) :
    ∀ acc : List CaseRecord,
      rows.foldl (fun acc2 cells =>
        if 3 ≤ cells.length then appendOpt acc2 (extract_case_from_row cells)
        else acc2) acc
      = acc ++ rows.filterMap (fun cells =>
          if 3 ≤ cells.length then extract_case_from_row cells else none) := by
  induction rows with
  | nil => intro acc; simp
  | cons cells t ih =>
    intro acc
    simp only [List.foldl_cons, List.filterMap_cons]
    by_cases hl : 3 ≤ cells.length
    · rw [if_pos hl, if_pos hl]
      cases he : extract_case_from_row cells with
      | some c => simp only [he, appendOpt_some]; rw [ih]; simp
      | none => simp only [he, appendOpt_none]; rw [ih]
    · rw [if_neg hl, if_neg hl]
      rw [ih]

theorem table_cases_eq (tables : List (List (List (List Char)))) :
    table_cases tables = tables.flatMap (fun rows =>
      rows.filterMap (fun cells =>
        if 3 ≤ cells.length then extract_case_from_row cells else none)) := by
  unfold table_cases
  have outer : ∀ (ts : List (List (List (List Char)))) (acc : List CaseRecord),
      ts.foldl (fun acc rows =>
        rows.foldl (fun acc2 cells =>
          if 3 ≤ cells.length then appendOpt acc2 (extract_case_from_row cells)
          else acc2) acc) acc
      = acc ++ ts.flatMap (fun rows =>
          rows.filterMap (fun cells =>
            if 3 ≤ cells.length then extract_case_from_row cells else none)) := by
    intro ts
    induction ts with
    | nil => intro acc; simp
    | cons rows t ih =>
      intro acc
      simp only [List.foldl_cons, List.flatMap_cons]
      rw [rows_loop_eq, ih]
      simp
  rw [outer tables []]
  rfl

theorem ftSlashDash_head {sep c : Char} {rest : List Char} {n : Nat}
    (h : ftSlashDash sep (c :: rest) = some n) : isLtrDot c = true := by
  by_cases hc : isLtrDot c = true
  · exact hc
  · exfalso
    have htw : (c :: rest).takeWhile isLtrDot = [] := by
      rw [List.takeWhile_cons, if_neg]
      simp [hc]
    simp [ftSlashDash, htw] at h

theorem ftOf_head {c : Char} {rest : List Char} {n : Nat}
    (h : ftOf (c :: rest) = some n) : isLtrDot c = true := by
  by_cases hc : isLtrDot c = true
  · exact hc
  · exfalso
    have htw : (c :: rest).takeWhile isLtrDot = [] := by
      rw [List.takeWhile_cons, if_neg]
      simp [hc]
    simp [ftOf, htw] at h

theorem findAllF_mem (p : List Char → Option Nat) :
    ∀ (f : Nat) (s : List Char) (m : List Char), m ∈ findAllF p f s →
      ∃ c rest n, p (c :: rest) = some (n + 1) ∧ m = (c :: rest).take (n + 1) := by
  intro f
  induction f with
  | zero =>
    intro s m hm
    cases s <;> simp [findAllF] at hm
  | succ f ih =>
    intro s m hm
    cases s with
    | nil => simp [findAllF] at hm
    | cons c rest =>
      rw [findAllF] at hm
      cases hp : p (c :: rest) with
      | none =>
        rw [hp] at hm
        exact ih rest m hm
      | some k =>
        cases k with
        | zero =>
          rw [hp] at hm
          exact ih rest m hm
        | succ n =>
          rw [hp] at hm
          rcases List.mem_cons.mp hm with rfl | hm2
          · exact ⟨c, rest, n, hp, rfl⟩
          · exact ih _ m hm2

theorem extract_from_text_eq (raw : List Char) :
    extract_from_text raw =
      [ftPat1, ftOf, ftPat3].flatMap
        (fun p => (findAllMatches p (textOf raw)).map mkTextRecord) := by
  unfold extract_from_text
  simp only [List.foldl_cons, List.foldl_nil, List.flatMap_cons, List.flatMap_nil]
  rw [foldl_app_map, foldl_app_map, foldl_app_map]
  simp

theorem text_cn_ne (raw : List Char) (r : CaseRecord)
    (h : r ∈ extract_from_text raw) : r.case_number ≠ [] := by
  rw [extract_from_text_eq, List.mem_flatMap] at h
  obtain ⟨p, hp, hm⟩ := h
  rw [List.mem_map] at hm
  obtain ⟨m, hmm, hrec⟩ := hm
  obtain ⟨c, rest, n, hpc, rfl⟩ := findAllF_mem p _ _ _ hmm
  have hhead : isLtrDot c = true := by
    simp only [List.mem_cons, List.not_mem_nil, or_false] at hp
    rcases hp with rfl | rfl | rfl
    · exact ftSlashDash_head hpc
    · exact ftOf_head hpc
    · exact ftSlashDash_head hpc
  rw [← hrec]
  show stripList ((c :: rest).take (n + 1)) ≠ []
  rw [List.take_succ_cons]
  exact strip_ne_nil (ltr_not_ws hhead)

/-- C8: every record produced by any of the three strategies — and hence any
record returned by `_parse_search_results` — has a non-empty case number. -/
theorem c8_nonempty_case_number :
    (∀ cells r, extract_case_from_row cells = some r → r.case_number ≠ [])
    ∧ (∀ el r, extract_case_data el = some r → r.case_number ≠ [])
    ∧ (∀ raw r, r ∈ extract_from_text raw → r.case_number ≠ [])
    ∧ (∀ doc r, r ∈ parse_search_results doc → r.case_number ≠ []) := by
  refine ⟨row_cn_ne, div_cn_ne, text_cn_ne, ?_⟩
  intro doc r h
  unfold parse_search_results at h
  by_cases hcap : containsSub (lowerList doc.raw) (cs "captcha") = true ∨
      containsSub (lowerList doc.raw) (cs "verify") = true
  · rw [if_pos hcap] at h
    cases h
  · rw [if_neg hcap] at h
    simp only at h
    by_cases ht : table_cases doc.tables = []
    · simp only [if_pos ht] at h
      by_cases htx : extract_from_text doc.raw = []
      · simp only [if_pos htx] at h
        rw [extract_from_divs_eq, List.mem_filterMap] at h
        obtain ⟨el, _, hel⟩ := h
        exact div_cn_ne el r hel
      · simp only [if_neg htx] at h
        exact text_cn_ne doc.raw r h
    · simp only [if_neg ht] at h
      rw [table_cases_eq, List.mem_flatMap] at h
      obtain ⟨rows, _, hrm⟩ := h
      rw [List.mem_filterMap] at hrm
      obtain ⟨cells, _, hcel⟩ := hrm
      by_cases hl : 3 ≤ cells.length
      · rw [if_pos hl] at hcel
        exact row_cn_ne cells r hcel
      · rw [if_neg hl] at hcel
        exact absurd hcel (by simp)

/-- Witness for C8's pipeline part at a plain-text document: the extracted
record's case number is non-empty. -/
theorem c8_nonempty_case_number_witness :
    mkTextRecord (cs "LPA 163/2023") ∈
      parse_search_results (Doc.mk (cs "LPA 163/2023") [] []) ∧
    (mkTextRecord (cs "LPA 163/2023")).case_number ≠ [] :=
  ⟨by decide,
   c8_nonempty_case_number.2.2.2 (Doc.mk (cs "LPA 163/2023") [] [])
     (mkTextRecord (cs "LPA 163/2023")) (by decide)⟩

theorem takeWhile_append_all {p : Char → Bool} (A l : List Char)
    (h : ∀ a ∈ A, p a = true) : (A ++ l).takeWhile p = A ++ l.takeWhile p := by
  induction A with
  | nil => simp
  | cons a t ih =>
    rw [List.cons_append, List.takeWhile_cons, if_pos (h a (List.mem_cons_self a t)),
      List.cons_append, ih (fun b hb => h b (List.mem_cons_of_mem a hb))]

theorem takeWhile_stop {p : Char → Bool} {b : Char} (t : List Char) (hb : p b = false) :
    (b :: t).takeWhile p = [] := by
  rw [List.takeWhile_cons, if_neg]
  simp [hb]

theorem ftSlashDash_full (sep : Char) (A W D Y : List Char)
    (hsepd : isDigitCh sep = false)
    (hA : A ≠ []) (hAl : ∀ c ∈ A, isLtrDot c = true)
    (hW : W ≠ []) (hWw : ∀ c ∈ W, isWs c = true)
    (hD : D ≠ []) (hDd : ∀ c ∈ D, isDigitCh c = true)
    (hY : Y.length = 4) (hYd : ∀ c ∈ Y, isDigitCh c = true) :
    ftSlashDash sep (A ++ (W ++ (D ++ sep :: Y))) =
      some (A.length + W.length + D.length + 1 + 4) := by
  have h1 : (A ++ (W ++ (D ++ sep :: Y))).takeWhile isLtrDot = A := by
    rw [takeWhile_append_all A _ hAl]
    cases W with
    | nil => exact absurd rfl hW
    | cons w W' =>
      rw [List.cons_append, takeWhile_stop _ (ws_not_ltr (hWw w (List.mem_cons_self w W')))]
      simp
  have h1d : (A ++ (W ++ (D ++ sep :: Y))).drop A.length = W ++ (D ++ sep :: Y) :=
    List.drop_left A _
  have h2 : (W ++ (D ++ sep :: Y)).takeWhile isWs = W := by
    rw [takeWhile_append_all W _ hWw]
    cases D with
    | nil => exact absurd rfl hD
    | cons d D' =>
      rw [List.cons_append, takeWhile_stop _ (digit_not_ws (hDd d (List.mem_cons_self d D')))]
      simp
  have h2d : (W ++ (D ++ sep :: Y)).drop W.length = D ++ sep :: Y := List.drop_left W _
  have h3 : (D ++ sep :: Y).takeWhile isDigitCh = D := by
    rw [takeWhile_append_all D _ hDd, takeWhile_stop _ hsepd]
    simp
  have h3d : (D ++ sep :: Y).drop D.length = sep :: Y := List.drop_left D _
  have hTake : Y.take 4 = Y := by rw [← hY]; exact List.take_length Y
  have hAll : Y.all isDigitCh = true := List.all_eq_true.mpr hYd
  have hAne : A.length ≠ 0 := by
    cases A with
    | nil => exact absurd rfl hA
    | cons a t => simp
  have hWne : W.length ≠ 0 := by
    cases W with
    | nil => exact absurd rfl hW
    | cons a t => simp
  have hDne : D.length ≠ 0 := by
    cases D with
    | nil => exact absurd rfl hD
    | cons a t => simp
  simp only [ftSlashDash, h1, h1d, h2, h2d, h3, h3d, hTake, hAll, hY]
  rw [if_neg hAne, if_neg hWne, if_neg hDne]
  simp

theorem ftOf_full (A W1 D W2 W3 Y : List Char) (o f : Char)
    (ho : o = 'o' ∨ o = 'O') (hf : f = 'f' ∨ f = 'F')
    (hA : A ≠ []) (hAl : ∀ c ∈ A, isLtrDot c = true)
    (hW1 : W1 ≠ []) (hW1w : ∀ c ∈ W1, isWs c = true)
    (hD : D ≠ []) (hDd : ∀ c ∈ D, isDigitCh c = true)
    (hW2 : W2 ≠ []) (hW2w : ∀ c ∈ W2, isWs c = true)
    (hW3 : W3 ≠ []) (hW3w : ∀ c ∈ W3, isWs c = true)
    (hY : Y.length = 4) (hYd : ∀ c ∈ Y, isDigitCh c = true) :
    ftOf (A ++ (W1 ++ (D ++ (W2 ++ o :: f :: (W3 ++ Y))))) =
      some (A.length + W1.length + D.length + W2.length + 2 + W3.length + 4) := by
  have how : isWs o = false := by rcases ho with rfl | rfl <;> decide
  have h1 : (A ++ (W1 ++ (D ++ (W2 ++ o :: f :: (W3 ++ Y))))).takeWhile isLtrDot = A := by
    rw [takeWhile_append_all A _ hAl]
    cases W1 with
    | nil => exact absurd rfl hW1
    | cons w W' =>
      rw [List.cons_append,
        takeWhile_stop _ (ws_not_ltr (hW1w w (List.mem_cons_self w W')))]
      simp
  have h1d : (A ++ (W1 ++ (D ++ (W2 ++ o :: f :: (W3 ++ Y))))).drop A.length =
      W1 ++ (D ++ (W2 ++ o :: f :: (W3 ++ Y))) := List.drop_left A _
  have h2 : (W1 ++ (D ++ (W2 ++ o :: f :: (W3 ++ Y)))).takeWhile isWs = W1 := by
    rw [takeWhile_append_all W1 _ hW1w]
    cases D with
    | nil => exact absurd rfl hD
    | cons d D' =>
      rw [List.cons_append,
        takeWhile_stop _ (digit_not_ws (hDd d (List.mem_cons_self d D')))]
      simp
  have h2d : (W1 ++ (D ++ (W2 ++ o :: f :: (W3 ++ Y)))).drop W1.length =
      D ++ (W2 ++ o :: f :: (W3 ++ Y)) := List.drop_left W1 _
  have h3 : (D ++ (W2 ++ o :: f :: (W3 ++ Y))).takeWhile isDigitCh = D := by
    rw [takeWhile_append_all D _ hDd]
    cases W2 with
    | nil => exact absurd rfl hW2
    | cons w W' =>
      rw [List.cons_append,
        takeWhile_stop _ (ws_not_digit (hW2w w (List.mem_cons_self w W')))]
      simp
  have h3d : (D ++ (W2 ++ o :: f :: (W3 ++ Y))).drop D.length =
      W2 ++ o :: f :: (W3 ++ Y) := List.drop_left D _
  have h4 : (W2 ++ o :: f :: (W3 ++ Y)).takeWhile isWs = W2 := by
    rw [takeWhile_append_all W2 _ hW2w, takeWhile_stop _ how]
    simp
  have h4d : (W2 ++ o :: f :: (W3 ++ Y)).drop W2.length = o :: f :: (W3 ++ Y) :=
    List.drop_left W2 _
  have h5 : (W3 ++ Y).takeWhile isWs = W3 := by
    rw [takeWhile_append_all W3 _ hW3w]
    cases hYc : Y with
    | nil => rw [hYc] at hY; cases hY
    | cons y Y' =>
      have hyd : isDigitCh y = true := hYd y (by rw [hYc]; exact List.mem_cons_self y Y')
      rw [takeWhile_stop _ (digit_not_ws hyd)]
      simp
  have h5d : (W3 ++ Y).drop W3.length = Y := List.drop_left W3 _
  have hTake : Y.take 4 = Y := by rw [← hY]; exact List.take_length Y
  have hAll : Y.all isDigitCh = true := List.all_eq_true.mpr hYd
  have hAne : A.length ≠ 0 := by
    cases A with
    | nil => exact absurd rfl hA
    | cons a t => simp
  have hW1ne : W1.length ≠ 0 := by
    cases W1 with
    | nil => exact absurd rfl hW1
    | cons a t => simp
  have hDne : D.length ≠ 0 := by
    cases D with
    | nil => exact absurd rfl hD
    | cons a t => simp
  have hW2ne : W2.length ≠ 0 := by
    cases W2 with
    | nil => exact absurd rfl hW2
    | cons a t => simp
  have hW3ne : W3.length ≠ 0 := by
    cases W3 with
    | nil => exact absurd rfl hW3
    | cons a t => simp
  simp only [ftOf, h1, h1d, h2, h2d, h3, h3d, h4, h4d, h5, h5d, hTake, hAll, hY]
  rw [if_neg hAne, if_neg hW1ne, if_neg hDne, if_neg hW2ne]
  simp only [if_pos (And.intro ho hf)]
  rw [if_neg hW3ne]
  simp

theorem genSlashDash_some (sep : Char) (A W D Y : List Char)
    (hsepd : isDigitCh sep = false)
    (hA : A ≠ []) (hAl : ∀ c ∈ A, isLtrDot c = true)
    (hW : W ≠ []) (hWw : ∀ c ∈ W, isWs c = true)
    (hD : D ≠ []) (hDd : ∀ c ∈ D, isDigitCh c = true)
    (hY : Y.length = 4) (hYd : ∀ c ∈ Y, isDigitCh c = true) :
    (genSlashDash sep (A ++ (W ++ (D ++ sep :: Y)))).isSome = true := by
  have h1 : (A ++ (W ++ (D ++ sep :: Y))).takeWhile isLtrDot = A := by
    rw [takeWhile_append_all A _ hAl]
    cases W with
    | nil => exact absurd rfl hW
    | cons w W' =>
      rw [List.cons_append, takeWhile_stop _ (ws_not_ltr (hWw w (List.mem_cons_self w W')))]
      simp
  have h1d : (A ++ (W ++ (D ++ sep :: Y))).drop A.length = W ++ (D ++ sep :: Y) :=
    List.drop_left A _
  have h2 : (W ++ (D ++ sep :: Y)).takeWhile isWs = W := by
    rw [takeWhile_append_all W _ hWw]
    cases D with
    | nil => exact absurd rfl hD
    | cons d D' =>
      rw [List.cons_append, takeWhile_stop _ (digit_not_ws (hDd d (List.mem_cons_self d D')))]
      simp
  have h2d : (W ++ (D ++ sep :: Y)).drop W.length = D ++ sep :: Y := List.drop_left W _
  have h3 : (D ++ sep :: Y).takeWhile isDigitCh = D := by
    rw [takeWhile_append_all D _ hDd, takeWhile_stop _ hsepd]
    simp
  have h3d : (D ++ sep :: Y).drop D.length = sep :: Y := List.drop_left D _
  have hTake : Y.take 4 = Y := by rw [← hY]; exact List.take_length Y
  have hDrop : Y.drop 4 = [] := by rw [← hY]; exact List.drop_length Y
  have hAll : Y.all isDigitCh = true := List.all_eq_true.mpr hYd
  have hAne : A.length ≠ 0 := by
    cases A with
    | nil => exact absurd rfl hA
    | cons a t => simp
  have hDne : D.length ≠ 0 := by
    cases D with
    | nil => exact absurd rfl hD
    | cons a t => simp
  simp only [genSlashDash, h1, h1d, h2, h2d, h3, h3d, hTake, hDrop, hAll, hY]
  rw [if_neg hAne, if_neg hDne]
  simp [atEnd]

theorem genOf_some (A W1 D W2 W3 Y : List Char) (o f : Char)
    (ho : o = 'o' ∨ o = 'O') (hf : f = 'f' ∨ f = 'F')
    (hA : A ≠ []) (hAl : ∀ c ∈ A, isLtrDot c = true)
    (hW1 : W1 ≠ []) (hW1w : ∀ c ∈ W1, isWs c = true)
    (hD : D ≠ []) (hDd : ∀ c ∈ D, isDigitCh c = true)
    (hW2 : W2 ≠ []) (hW2w : ∀ c ∈ W2, isWs c = true)
    (_hW3 : W3 ≠ []) (hW3w : ∀ c ∈ W3, isWs c = true)
    (hY : Y.length = 4) (hYd : ∀ c ∈ Y, isDigitCh c = true) :
    (genOf (A ++ (W1 ++ (D ++ (W2 ++ o :: f :: (W3 ++ Y)))))).isSome = true := by
  have how : isWs o = false := by rcases ho with rfl | rfl <;> decide
  have h1 : (A ++ (W1 ++ (D ++ (W2 ++ o :: f :: (W3 ++ Y))))).takeWhile isLtrDot = A := by
    rw [takeWhile_append_all A _ hAl]
    cases W1 with
    | nil => exact absurd rfl hW1
    | cons w W' =>
      rw [List.cons_append,
        takeWhile_stop _ (ws_not_ltr (hW1w w (List.mem_cons_self w W')))]
      simp
  have h1d : (A ++ (W1 ++ (D ++ (W2 ++ o :: f :: (W3 ++ Y))))).drop A.length =
      W1 ++ (D ++ (W2 ++ o :: f :: (W3 ++ Y))) := List.drop_left A _
  have h2 : (W1 ++ (D ++ (W2 ++ o :: f :: (W3 ++ Y)))).takeWhile isWs = W1 := by
    rw [takeWhile_append_all W1 _ hW1w]
    cases D with
    | nil => exact absurd rfl hD
    | cons d D' =>
      rw [List.cons_append,
        takeWhile_stop _ (digit_not_ws (hDd d (List.mem_cons_self d D')))]
      simp
  have h2d : (W1 ++ (D ++ (W2 ++ o :: f :: (W3 ++ Y)))).drop W1.length =
      D ++ (W2 ++ o :: f :: (W3 ++ Y)) := List.drop_left W1 _
  have h3 : (D ++ (W2 ++ o :: f :: (W3 ++ Y))).takeWhile isDigitCh = D := by
    rw [takeWhile_append_all D _ hDd]
    cases W2 with
    | nil => exact absurd rfl hW2
    | cons w W' =>
      rw [List.cons_append,
        takeWhile_stop _ (ws_not_digit (hW2w w (List.mem_cons_self w W')))]
      simp
  have h3d : (D ++ (W2 ++ o :: f :: (W3 ++ Y))).drop D.length =
      W2 ++ o :: f :: (W3 ++ Y) := List.drop_left D _
  have h4 : (W2 ++ o :: f :: (W3 ++ Y)).takeWhile isWs = W2 := by
    rw [takeWhile_append_all W2 _ hW2w, takeWhile_stop _ how]
    simp
  have h4d : (W2 ++ o :: f :: (W3 ++ Y)).drop W2.length = o :: f :: (W3 ++ Y) :=
    List.drop_left W2 _
  have h5 : (W3 ++ Y).takeWhile isWs = W3 := by
    rw [takeWhile_append_all W3 _ hW3w]
    cases hYc : Y with
    | nil => rw [hYc] at hY; cases hY
    | cons y Y' =>
      have hyd : isDigitCh y = true := hYd y (by rw [hYc]; exact List.mem_cons_self y Y')
      rw [takeWhile_stop _ (digit_not_ws hyd)]
      simp
  have h5d : (W3 ++ Y).drop W3.length = Y := List.drop_left W3 _
  have hTake : Y.take 4 = Y := by rw [← hY]; exact List.take_length Y
  have hDrop : Y.drop 4 = [] := by rw [← hY]; exact List.drop_length Y
  have hAll : Y.all isDigitCh = true := List.all_eq_true.mpr hYd
  have hAne : A.length ≠ 0 := by
    cases A with
    | nil => exact absurd rfl hA
    | cons a t => simp
  have hDne : D.length ≠ 0 := by
    cases D with
    | nil => exact absurd rfl hD
    | cons a t => simp
  simp only [genOf, h1, h1d, h2, h2d, h3, h3d, h4, h4d, h5, h5d, hTake, hDrop, hAll, hY]
  rw [if_neg hAne, if_neg hDne]
  simp [atEnd, And.intro ho hf]

theorem findAllF_nil (p : List Char → Option Nat) (f : Nat) : findAllF p f [] = [] := by
  cases f <;> rfl

theorem findAll_single (p : List Char → Option Nat) (c : Char) (rest : List Char)
    (h : p (c :: rest) = some (rest.length + 1)) :
    findAllMatches p (c :: rest) = [c :: rest] := by
  unfold findAllMatches
  rw [List.length_cons, findAllF, h]
  show (c :: rest).take (rest.length + 1) :: findAllF p rest.length ((c :: rest).drop (rest.length + 1)) = [c :: rest]
  have ht : (c :: rest).take (rest.length + 1) = c :: rest := by
    rw [← List.length_cons c rest]
    exact List.take_length _
  have hd : (c :: rest).drop (rest.length + 1) = [] := by
    rw [← List.length_cons c rest]
    exact List.drop_length _
  rw [ht, hd, findAllF_nil]

theorem found_in_text (p : List Char → Option Nat) (raw s : List Char)
    (hp : p ∈ [ftPat1, ftOf, ftPat3]) (htext : textOf raw = s)
    (hmatch : p s = some s.length) (hne : s ≠ []) :
    mkTextRecord s ∈ extract_from_text raw := by
  rw [extract_from_text_eq, List.mem_flatMap]
  refine ⟨p, hp, ?_⟩
  rw [htext]
  cases s with
  | nil => exact absurd rfl hne
  | cons c rest =>
    rw [List.length_cons] at hmatch
    rw [findAll_single p c rest hmatch]
    simp

/-- C2 (counterexample): "LPA163/2023" is accepted (anchored) by the first
generic fallback pattern of `_parse_case_number` (whose whitespace is
optional), but the free-text scan of a document whose text is exactly that
string finds nothing, because the free-text patterns require at least one
whitespace character — so the two pattern sets are not the same. -/
theorem c2_counterexample :
    fallbackAccepts (cs "LPA163/2023") = true ∧
    (parse_case_number (cs "LPA163/2023")).isSome = true ∧
    textOf (cs "LPA163/2023") = cs "LPA163/2023" ∧
    extract_from_text (cs "LPA163/2023") = [] := by decide

/-- C2 (amended): the free-text patterns are the generic fallback patterns
with the optional whitespace separators made mandatory; for every string
accepted by a fallback pattern through a match whose whitespace separators
are all non-empty, the free-text scan of a document whose markup-stripped,
whitespace-collapsed text is exactly that string finds it and emits a
minimal record for it. -/
theorem c2_freetext_scan :
    (∀ (raw : List Char) (sep : Char) (A W D Y : List Char),
      sep = '/' ∨ sep = '-' →
      A ≠ [] → (∀ c ∈ A, isLtrDot c = true) →
      W ≠ [] → (∀ c ∈ W, isWs c = true) →
      D ≠ [] → (∀ c ∈ D, isDigitCh c = true) →
      Y.length = 4 → (∀ c ∈ Y, isDigitCh c = true) →
      textOf raw = A ++ (W ++ (D ++ sep :: Y)) →
      (genSlashDash sep (A ++ (W ++ (D ++ sep :: Y)))).isSome = true ∧
        mkTextRecord (A ++ (W ++ (D ++ sep :: Y))) ∈ extract_from_text raw)
    ∧ (∀ (raw : List Char) (A W1 D W2 W3 Y : List Char) (o f : Char),
      o = 'o' ∨ o = 'O' → f = 'f' ∨ f = 'F' →
      A ≠ [] → (∀ c ∈ A, isLtrDot c = true) →
      W1 ≠ [] → (∀ c ∈ W1, isWs c = true) →
      D ≠ [] → (∀ c ∈ D, isDigitCh c = true) →
      W2 ≠ [] → (∀ c ∈ W2, isWs c = true) →
      W3 ≠ [] → (∀ c ∈ W3, isWs c = true) →
      Y.length = 4 → (∀ c ∈ Y, isDigitCh c = true) →
      textOf raw = A ++ (W1 ++ (D ++ (W2 ++ o :: f :: (W3 ++ Y)))) →
      (genOf (A ++ (W1 ++ (D ++ (W2 ++ o :: f :: (W3 ++ Y)))))).isSome = true ∧
        mkTextRecord (A ++ (W1 ++ (D ++ (W2 ++ o :: f :: (W3 ++ Y))))) ∈
          extract_from_text raw) := by
  constructor
  · intro raw sep A W D Y hsep hA hAl hW hWw hD hDd hY hYd htext
    have hsepd : isDigitCh sep = false := by rcases hsep with rfl | rfl <;> decide
    refine ⟨genSlashDash_some sep A W D Y hsepd hA hAl hW hWw hD hDd hY hYd, ?_⟩
    have hfull := ftSlashDash_full sep A W D Y hsepd hA hAl hW hWw hD hDd hY hYd
    have hlen : A.length + W.length + D.length + 1 + 4 =
        (A ++ (W ++ (D ++ sep :: Y))).length := by
      simp only [List.length_append, List.length_cons, hY]
      omega
    rw [hlen] at hfull
    have hne : A ++ (W ++ (D ++ sep :: Y)) ≠ [] := by
      cases A with
      | nil => exact absurd rfl hA
      | cons a t => simp
    rcases hsep with rfl | rfl
    · exact found_in_text ftPat1 raw _ (by simp) htext hfull hne
    · exact found_in_text ftPat3 raw _ (by simp) htext hfull hne
  · intro raw A W1 D W2 W3 Y o f ho hf hA hAl hW1 hW1w hD hDd hW2 hW2w hW3 hW3w hY hYd htext
    refine ⟨genOf_some A W1 D W2 W3 Y o f ho hf hA hAl hW1 hW1w hD hDd hW2 hW2w hW3 hW3w hY hYd, ?_⟩
    have hfull := ftOf_full A W1 D W2 W3 Y o f ho hf hA hAl hW1 hW1w hD hDd hW2 hW2w hW3 hW3w hY hYd
    have hlen : A.length + W1.length + D.length + W2.length + 2 + W3.length + 4 =
        (A ++ (W1 ++ (D ++ (W2 ++ o :: f :: (W3 ++ Y))))).length := by
      simp only [List.length_append, List.length_cons, hY]
      omega
    rw [hlen] at hfull
    have hne : A ++ (W1 ++ (D ++ (W2 ++ o :: f :: (W3 ++ Y)))) ≠ [] := by
      cases A with
      | nil => exact absurd rfl hA
      | cons a t => simp
    exact found_in_text ftOf raw _ (by simp) htext hfull hne

/-- Witness for C2 at the string "LPA 163/2023". -/
theorem c2_freetext_scan_witness :
    (genSlashDash '/' (cs "LPA" ++ (cs " " ++ (cs "163" ++ '/' :: cs "2023")))).isSome = true ∧
      mkTextRecord (cs "LPA" ++ (cs " " ++ (cs "163" ++ '/' :: cs "2023"))) ∈
        extract_from_text (cs "LPA 163/2023") :=
  c2_freetext_scan.1 (cs "LPA 163/2023") '/' (cs "LPA") (cs " ") (cs "163") (cs "2023")
    (Or.inl rfl) (by decide) (by decide) (by decide) (by decide) (by decide) (by decide)
    (by decide) (by decide) (by decide)
